import Mathlib

/-!
# Verification of the model-loading / skeletal-animation core

Shallow embedding of `src/include/model.hpp` and `src/src/model.cpp`
(classes `Model`, `Animation`, `Channel`, `PosRotScale`, functions
`gather_bones`, `process_bones`, `process_mesh` (influence resolution),
`load_model` (mesh counting and animation-channel compilation),
`get_key_value`, `update_pose`, `convert_local_to_global_pose`).

Modelling conventions:
* `float`/`double` arithmetic is embedded as exact rationals (`ℚ`);
  `glm::vec3` as a 3-field structure, `glm::quat` as a 4-field structure,
  `glm::mat4` as `Matrix (Fin 4) (Fin 4) ℚ` (glm stores column-major but
  multiplication is ordinary matrix multiplication of the semantic
  matrices, which is what we embed).
* Fixed-capacity C++ arrays (`std::array<_, MAX_BONES>` etc.) are embedded
  as total functions out of `ℕ`.  The caller-provided initial contents of
  such an array (in C++ often indeterminate) are passed in explicitly, so
  what the code leaves untouched is visible in the theorems.
* `std::unordered_map` is embedded as an association list where insertion
  prepends (so a later insertion of the same key overrides the earlier
  one, as `operator[]` does) and lookup takes the first match.
* `glm::inverse` and the matrix decomposition `mat4_to_pos_rot_scale`
  (which needs square roots, hence is not rational) are passed as function
  parameters; no claim inspects the numeric values they produce.
* OpenGL calls, texture loading and the on-screen drawing in `model.cpp`
  are outside the embedded state (they do not touch the data the claims
  are about).
-/

/-- Static capacity of the mesh arrays of `Model` (`MAX_MESHES` in
`model.hpp`). -/
def MAX_MESHES : ℕ := 20

/-- Static capacity of the bone arrays of `Model`, of `Pose` and of the
channel array of `Animation` (`MAX_BONES` in `model.hpp`). -/
def MAX_BONES : ℕ := 100

/-- `glm::vec3` over exact rationals. -/
structure Vec3 where
  x : ℚ
  y : ℚ
  z : ℚ
deriving DecidableEq

/-- `glm::quat` over exact rationals (`w` is the scalar part). -/
structure Quat where
  w : ℚ
  x : ℚ
  y : ℚ
  z : ℚ
deriving DecidableEq

/-- `glm::mat4` as its semantic 4×4 rational matrix. -/
abbrev Mat4 : Type := Matrix (Fin 4) (Fin 4) ℚ

/-- A `Pose` (`std::array<glm::mat4, MAX_BONES>`), embedded as a total
function; indices `≥ MAX_BONES` stand for out-of-bounds slots. -/
abbrev Pose : Type := ℕ → Mat4

/-- `glm::mix(x, y, a)` on vectors: `x * (1 - a) + y * a`, componentwise. -/
def vmix (a b : Vec3) (t : ℚ) : Vec3 :=
  ⟨a.x * (1 - t) + b.x * t, a.y * (1 - t) + b.y * t, a.z * (1 - t) + b.z * t⟩

/-- `struct Key<T>` of `model.hpp`: one keyframe. -/
structure Key (V : Type) where
  time : ℚ
  value : V
deriving DecidableEq

/-- `keys[i]` of a key vector; the default is only reached out of bounds
(the C++ indexing there would be undefined behaviour). -/
def keyAt {V : Type} (dflt : V) (keys : List (Key V)) (i : ℕ) : Key V :=
  keys.getD i ⟨0, dflt⟩

/-- The `while (bbegin < bend - 1)` binary-search loop of `get_key_value`
(`model.cpp:414-426`), returning the final value of `bbegin`.  The C++
loop guard `bbegin < bend - 1` on `size_t` equals `bbegin + 1 < bend`
whenever `bend ≥ 1`, which holds at every reachable call. -/
def bsearchLoop {V : Type} (dflt : V) (keys : List (Key V)) (time : ℚ)
    (bbegin bend : ℕ) : ℕ :=
  if bbegin + 1 < bend then
    let mid := bbegin + (bend - bbegin) / 2
    if (keyAt dflt keys mid).time > time then
      bsearchLoop dflt keys time bbegin mid
    else if mid < bend ∧ (keyAt dflt keys (mid + 1)).time < time then
      bsearchLoop dflt keys time (mid + 1) bend
    else
      mid
  else
    bbegin
termination_by bend - bbegin
decreasing_by
  all_goals omega

/-- `get_key_value` (`model.cpp:405-429`), generic in the value type and
in the interpolator `mix` (the C++ is a template whose `glm::mix`
instantiation differs between `vec3` and `quat`).  `ub` is the value an
execution would read through `keys.front()` when `keys` is empty — that
C++ call is undefined behaviour, so the result is an unspecified value. -/
def get_key_value {V : Type} (mix : V → V → ℚ → V) (ub : V)
    (keys : List (Key V)) (time : ℚ) : V :=
  match keys with
  | [] => ub
  | k₀ :: _ =>
    let last := keyAt ub keys (keys.length - 1)
    if time < k₀.time then k₀.value
    else if time ≥ last.time then last.value
    else
      let bbegin := bsearchLoop ub keys time 0 (keys.length - 1)
      let kb := keyAt ub keys bbegin
      let kb1 := keyAt ub keys (bbegin + 1)
      let interp := (time - kb.time) / (kb1.time - kb.time)
      mix kb.value kb1.value interp

/-- `get_key_value` instantiated at `glm::vec3` (position keys), where
`glm::mix` is linear interpolation. -/
def get_key_value_vec3 (ub : Vec3) (keys : List (Key Vec3)) (time : ℚ) : Vec3 :=
  get_key_value vmix ub keys time

/-- `struct PosRotScale` of `model.hpp`: a decomposed local transform. -/
structure PosRotScale where
  position : Vec3
  rotation : Quat
  scale : Vec3
deriving DecidableEq

/-- `glm::mat4_cast` on a quaternion `(w,x,y,z)`: the standard rotation
matrix (bottom-right entry 1, last row/column otherwise 0). -/
def quatCast (q : Quat) : Mat4 :=
  !![1 - 2*(q.y^2 + q.z^2), 2*(q.x*q.y - q.w*q.z), 2*(q.x*q.z + q.w*q.y), 0;
     2*(q.x*q.y + q.w*q.z), 1 - 2*(q.x^2 + q.z^2), 2*(q.y*q.z - q.w*q.x), 0;
     2*(q.x*q.z - q.w*q.y), 2*(q.y*q.z + q.w*q.x), 1 - 2*(q.x^2 + q.y^2), 0;
     0, 0, 0, 1]

/-- `PosRotScale::to_mat4` (`model.hpp:66-71`):
`glm::scale(glm::mat4_cast(rotation), scale)` scales the first three
columns, then `mat[3] = vec4(position, 1)` overwrites the last column. -/
def PosRotScale.to_mat4 (p : PosRotScale) : Mat4 :=
  let rs : Matrix (Fin 4) (Fin 4) ℚ :=
    quatCast p.rotation * Matrix.diagonal ![p.scale.x, p.scale.y, p.scale.z, 1]
  Matrix.of fun r c =>
    if c = 3 then ![p.position.x, p.position.y, p.position.z, 1] r else rs r c

/-- `struct Channel` of `model.hpp`. -/
structure Channel where
  bone_id : ℕ
  position_keys : List (Key Vec3)
  rotation_keys : List (Key Quat)

/-- `struct Animation` of `model.hpp`; the fixed-capacity channel array
is a total function (see the header comment). -/
structure Animation where
  duration : ℚ
  n_channels : ℕ
  channels : ℕ → Channel

/-- `struct Model` of `model.hpp` (the fields the animation core reads or
writes; the GL handles, materials and bounding box are omitted as no
claim mentions them). -/
structure Model where
  n_meshes : ℕ
  n_bones : ℕ
  bone_mapping : List (String × ℕ)
  parent_ids : ℕ → ℕ
  bone_ends : List (Option ℕ × Vec3)
  offsets : Pose
  default_pose : Pose
  default_pose_prs : ℕ → PosRotScale

/-- The wrap `time - glm::floor(time / duration) * duration` of
`update_pose` (`model.cpp:434`). -/
def loopedTime (duration time : ℚ) : ℚ :=
  time - (⌊time / duration⌋ : ℚ) * duration

/-- The body of the per-channel loop of `update_pose`
(`model.cpp:439-446`): the `PosRotScale` that is composed into the pose
for `channel.bone_id`.  `qmix` is `glm::mix` on quaternions (spherical
interpolation, kept abstract as it is not rational); `ubV`/`ubQ` are the
unspecified values an execution would read through `front()` of an empty
key vector (undefined behaviour in the C++).  Note that the *rotation*
branch of the C++ is guarded by `position_keys.empty()` as well. -/
def channelPRS (qmix : Quat → Quat → ℚ → Quat) (ubV : Vec3) (ubQ : Quat)
    (model : Model) (channel : Channel) (looped_time : ℚ) : PosRotScale :=
  let prs := model.default_pose_prs channel.bone_id
  let prs := if channel.position_keys ≠ [] then
      { prs with position := get_key_value vmix ubV channel.position_keys looped_time }
    else prs
  if channel.position_keys ≠ [] then
    { prs with rotation := get_key_value qmix ubQ channel.rotation_keys looped_time }
  else prs

/-- `ModelManager::update_pose` (`model.cpp:431-449`).  The caller's
`Pose` buffer is `pose`; the result is the buffer after the call. -/
def update_pose (qmix : Quat → Quat → ℚ → Quat) (ubV : Vec3) (ubQ : Quat)
    (model : Model) (pose : Pose) (animation : Animation) (time : ℚ) : Pose :=
  let time := time * 24
  let looped_time := loopedTime animation.duration time
  let pose := (List.range model.n_bones).foldl
    (fun p i => Function.update p i (model.default_pose i)) pose
  (List.range animation.n_channels).foldl
    (fun p i =>
      let channel := animation.channels i
      Function.update p channel.bone_id
        (channelPRS qmix ubV ubQ model channel looped_time).to_mat4)
    pose

/-- `ModelManager::convert_local_to_global_pose` (`model.cpp:518-532`).
`init` is the caller's (in C++ uninitialized) output buffer. -/
def convert_local_to_global_pose (model : Model) (local_pose : Pose)
    (apply_offsets : Bool) (init : Pose) : Pose :=
  let global_pose := (List.range model.n_bones).foldl
    (fun g i =>
      Function.update g i
        (if model.parent_ids i < model.n_bones then
          g (model.parent_ids i) * local_pose i
        else
          local_pose i))
    init
  if apply_offsets then
    (List.range model.n_bones).foldl
      (fun g i => Function.update g i (g i * model.offsets i)) global_pose
  else
    global_pose

/-- An `aiNode` of the imported scene: name, parent-relative transform
(`mTransformation`), indices into the scene's mesh array (`mMeshes`) and
children. -/
inductive AiNode : Type where
  | mk (name : String) (transform : Mat4) (meshIdxs : List ℕ)
      (children : List AiNode)

/-- Name of a node. -/
def AiNode.name : AiNode → String
  | .mk n _ _ _ => n

/-- Parent-relative transform of a node. -/
def AiNode.transform : AiNode → Mat4
  | .mk _ t _ _ => t

/-- Mesh indices referenced by a node. -/
def AiNode.meshIdxs : AiNode → List ℕ
  | .mk _ _ ms _ => ms

/-- Children of a node. -/
def AiNode.children : AiNode → List AiNode
  | .mk _ _ _ cs => cs

/-- An `aiBone` of an `aiMesh`: bone name and bind-pose offset matrix. -/
structure AiMeshBone where
  name : String
  offsetMatrix : Mat4

/-- The parts of an `aiMesh` the bone pipeline reads (vertex data is
handled separately by the influence-resolution embedding). -/
structure AiMesh where
  bones : List AiMeshBone

/-- An `aiNodeAnim`: one raw keyframe track. -/
structure AiNodeAnim where
  nodeName : String
  positionKeys : List (Key Vec3)
  rotationKeys : List (Key Quat)

/-- An `aiAnimation`. -/
structure AiAnimation where
  duration : ℚ
  tracks : List AiNodeAnim

/-- The parts of an `aiScene` the loader reads. -/
structure AiScene where
  rootNode : AiNode
  meshes : List AiMesh
  animations : List AiAnimation

/-- `BoneInfo` (`model.hpp:151-163`): an element of the
`std::set<BoneInfo>` ordered by `(depth, node pointer)`.  The pointer is
an arbitrary stable per-node identity; we use the pre-order index
`nodeId` assigned during the traversal.  `parentName` is
`node->mParent->mName` (`none` at the scene root). -/
structure BoneInfo where
  depth : ℕ
  nodeId : ℕ
  name : String
  parentName : Option String
  transform : Mat4
  offset : Mat4

/-- A node recorded in `ai_bone_ends`: its name, its parent's name and
its local transform. -/
structure EndInfo where
  name : String
  parentName : Option String
  transform : Mat4

/-- The accumulating state of `gather_bones`: the `included_bones` set
(as the list of inserted elements; the set ordering is applied by
`process_bones`), the `ai_bone_ends` vector, and the next pre-order
node id. -/
structure GatherState where
  included : List BoneInfo
  ends : List EndInfo
  nextId : ℕ

mutual

/-- `ModelManager::gather_bones` (`model.cpp:135-179`).  A node is
directly skinned iff its name is a key of `bone_offsets`; `is_parent_bone`
is the `is_bone` flag of the direct parent (i.e. whether the *parent* is
directly skinned).  Children are processed first, then the node inserts
itself into `included_bones` (if it or a descendant is skinned) or into
`ai_bone_ends` (otherwise, if its direct parent is directly skinned).
The `offset` of a bone that is not directly skinned is uninitialized in
the C++; we store the identity, and no claim reads it. -/
def gather_bones (bone_offsets : List (String × Mat4)) (node : AiNode)
    (parentName : Option String) (is_parent_bone : Bool) (depth : ℕ)
    (st : GatherState) : GatherState × Bool :=
  match node with
  | .mk nm _tf _ms children =>
    let myId := st.nextId
    let st := { st with nextId := st.nextId + 1 }
    let is_bone := (bone_offsets.lookup nm).isSome
    let (st, childIncluded) :=
      gather_bones_list bone_offsets children (some nm) is_bone (depth + 1) st
    let should_include := is_bone || childIncluded
    if should_include then
      ({ st with included := st.included ++
          [⟨depth, myId, nm, parentName, AiNode.transform (.mk nm _tf _ms children),
            (bone_offsets.lookup nm).getD 1⟩] }, true)
    else if is_parent_bone then
      ({ st with ends := st.ends ++
          [⟨nm, parentName, AiNode.transform (.mk nm _tf _ms children)⟩] }, false)
    else
      (st, false)

/-- The `for` loop over `node->mNumChildren` in `gather_bones`,
accumulating `should_include` over the children. -/
def gather_bones_list (bone_offsets : List (String × Mat4))
    (nodes : List AiNode) (parentName : Option String)
    (is_parent_bone : Bool) (depth : ℕ) (st : GatherState) :
    GatherState × Bool :=
  match nodes with
  | [] => (st, false)
  | n :: rest =>
    let (st, b) := gather_bones bone_offsets n parentName is_parent_bone depth st
    let (st, b') := gather_bones_list bone_offsets rest parentName is_parent_bone depth st
    (st, b || b')

end

mutual

/-- The first traversal of `process_bones` (`model.cpp:183-202`):
collect `bone_offsets[bone name] = offsetMatrix * inverse(full node
transform)` over every mesh reference of every node.  `inv` stands for
`glm::inverse`.  Later insertions of the same name override earlier ones
(the map values are never compared by the claims; the C++ stack
traversal visits children in reverse order, which can only permute the
override order of duplicate names). -/
def collect_bone_offsets (inv : Mat4 → Mat4) (meshes : List AiMesh)
    (node : AiNode) (transform : Mat4) (acc : List (String × Mat4)) :
    List (String × Mat4) :=
  match node with
  | .mk _nm tf ms children =>
    let full := transform * tf
    let acc := ms.foldl
      (fun a i =>
        ((meshes.getD i ⟨[]⟩).bones.foldl
          (fun a b => (b.name, b.offsetMatrix * inv full) :: a) a))
      acc
    collect_bone_offsets_list inv meshes children full acc

/-- Child loop of `collect_bone_offsets`. -/
def collect_bone_offsets_list (inv : Mat4 → Mat4) (meshes : List AiMesh)
    (nodes : List AiNode) (transform : Mat4) (acc : List (String × Mat4)) :
    List (String × Mat4) :=
  match nodes with
  | [] => acc
  | n :: rest =>
    collect_bone_offsets_list inv meshes rest transform
      (collect_bone_offsets inv meshes n transform acc)

end

/-- The ordering of `std::set<BoneInfo>`: depth ascending, then the
stable per-node identity (`BoneInfo::operator<`, `model.hpp:157-162`). -/
def boneInfoLE (a b : BoneInfo) : Bool :=
  if a.depth = b.depth then a.nodeId ≤ b.nodeId else a.depth < b.depth

/-- Insert into a list sorted by `boneInfoLE`. -/
def insertBone (b : BoneInfo) : List BoneInfo → List BoneInfo
  | [] => [b]
  | c :: rest =>
    if boneInfoLE b c then b :: c :: rest else c :: insertBone b rest

/-- The iteration order of `std::set<BoneInfo>`: the inserted elements
sorted by `boneInfoLE` (an insertion sort; the sort keys
`(depth, nodeId)` are distinct across nodes, so any sorting algorithm
yields this order). -/
def sortBones : List BoneInfo → List BoneInfo
  | [] => []
  | b :: rest => insertBone b (sortBones rest)

/-- The body of the id-assignment loop of `process_bones`
(`model.cpp:208-219`) for one `BoneInfo`.  The bone id is the current
`n_bones` (post-incremented); the name→id mapping is only inserted for
non-empty names; the parent id is only recorded when the parent exists
and is *already* in the mapping at this point of the loop. -/
def assign_bone (mat4_to_pos_rot_scale : Mat4 → PosRotScale) (m : Model)
    (b : BoneInfo) : Model :=
  let bone_id := m.n_bones
  let m := { m with n_bones := m.n_bones + 1 }
  let m := if b.name ≠ "" then
      { m with bone_mapping := (b.name, bone_id) :: m.bone_mapping }
    else m
  let m := match b.parentName with
    | some pn =>
      match m.bone_mapping.lookup pn with
      | some pid => { m with parent_ids := Function.update m.parent_ids bone_id pid }
      | none => m
    | none => m
  { m with
    offsets := Function.update m.offsets bone_id b.offset,
    default_pose := Function.update m.default_pose bone_id b.transform,
    default_pose_prs := Function.update m.default_pose_prs bone_id
      (mat4_to_pos_rot_scale b.transform) }

/-- `ModelManager::process_bones` (`model.cpp:181-227`).
`mat4_to_pos_rot_scale` (the decomposition, which needs square roots) is
a parameter; `model` is the caller's `Model` with whatever its arrays
already hold.  Note `model->n_bones++` *before* the loop: id 0 is
reserved and never assigned to any node.  The bone-end entries pair the
final mapping's id for the parent name (`at` would throw in C++ when it
is absent, hence the `Option`) with the translation column of the node's
local transform. -/
def process_bones (inv : Mat4 → Mat4)
    (mat4_to_pos_rot_scale : Mat4 → PosRotScale) (scene : AiScene)
    (model : Model) : Model :=
  let bone_offsets := collect_bone_offsets inv scene.meshes scene.rootNode 1 []
  let (gst, _) := gather_bones bone_offsets scene.rootNode none false 0 ⟨[], [], 0⟩
  let sorted := sortBones gst.included
  let model := { model with n_bones := model.n_bones + 1 }
  let model := sorted.foldl (assign_bone mat4_to_pos_rot_scale) model
  let newEnds := gst.ends.map fun e =>
    ((e.parentName.bind fun pn => model.bone_mapping.lookup pn),
     (⟨e.transform 0 3, e.transform 1 3, e.transform 2 3⟩ : Vec3))
  { model with bone_ends := model.bone_ends ++ newEnds }

/-- The animation-compilation block of `load_model` (`model.cpp:379-401`)
for one raw track.  Note the C++ order: `animation->channels
[animation->n_channels++]` grabs (and counts) a channel slot *before*
the bone-mapping check, so an unmapped track consumes a slot and leaves
its contents untouched; a mapped track sets the bone id and appends its
keys (`push_back`) to whatever the slot already holds. -/
def compile_track (mapping : List (String × ℕ)) (a : Animation)
    (track : AiNodeAnim) : Animation :=
  let idx := a.n_channels
  let a := { a with n_channels := a.n_channels + 1 }
  match mapping.lookup track.nodeName with
  | some bid =>
    let old := a.channels idx
    let filled : Channel :=
      ⟨bid, old.position_keys ++ track.positionKeys,
       old.rotation_keys ++ track.rotationKeys⟩
    { a with channels := Function.update a.channels idx filled }
  | none => a

/-- The `if (scene->mNumAnimations > 0)` block of `load_model`
(`model.cpp:379-401`): only the first animation is compiled. -/
def compile_animation (mapping : List (String × ℕ)) (animations : List AiAnimation)
    (a : Animation) : Animation :=
  match animations with
  | [] => a
  | anim :: _ =>
    anim.tracks.foldl (compile_track mapping) { a with duration := anim.duration }

mutual

/-- Number of (node, mesh reference) pairs in a subtree: every such pair
executes `model->meshes[model->n_meshes++]` in the mesh traversal of
`load_model` (`model.cpp:330-344`), with no capacity check. -/
def count_mesh_refs : AiNode → ℕ
  | .mk _ _ ms cs => ms.length + count_mesh_refs_list cs

/-- Child loop of `count_mesh_refs`. -/
def count_mesh_refs_list : List AiNode → ℕ
  | [] => 0
  | n :: rest => count_mesh_refs n + count_mesh_refs_list rest

end

/-- `ModelManager::load_model` (`model.cpp:308-403`), restricted to the
state the claims are about: `none` for the scene models
`importer_.ReadFile` returning `nullptr` (the only failure path, which
returns `false`); otherwise the function processes bones, consumes one
`meshes` slot per (node, mesh reference) pair — with no bound check
against `MAX_MESHES` — compiles the first animation and returns `true`.
Vertex/index buffers, materials, bounding box and the GL upload do not
touch these fields and are omitted. -/
def load_model (inv : Mat4 → Mat4)
    (mat4_to_pos_rot_scale : Mat4 → PosRotScale) (scene? : Option AiScene)
    (model : Model) (animation : Animation) :
    Bool × Model × Animation :=
  match scene? with
  | none => (false, model, animation)
  | some scene =>
    let model := process_bones inv mat4_to_pos_rot_scale scene model
    let model := { model with
      n_meshes := model.n_meshes + count_mesh_refs scene.rootNode }
    let animation := compile_animation model.bone_mapping scene.animations animation
    (true, model, animation)

/-- The per-vertex influence slots of `VertPNUBiBw`: 4 bone ids and 4
weights (`bone_ids`, `bone_weights`). -/
structure VertWeights where
  ids : Fin 4 → ℕ
  ws : Fin 4 → ℚ

/-- A fresh vertex: `bone_ids = {0,0,0,0}`, `bone_weights = {0,…,0}`
(`model.cpp:249-250`). -/
def initVertWeights : VertWeights := ⟨fun _ => 0, fun _ => 0⟩

/-- `get_min_index` (`model.cpp:56-61`): index of a minimal entry of the
4 weights. -/
def get_min_index (v : Fin 4 → ℚ) : Fin 4 :=
  let min_lhs : Fin 4 := if v 0 < v 1 then 0 else 1
  let min_rhs : Fin 4 := if v 2 < v 3 then 2 else 3
  if v min_lhs < v min_rhs then min_lhs else min_rhs

/-- One incoming (bone id, weight) contribution (`model.cpp:257-265`):
accepted only if it strictly exceeds the current minimum slot, which it
replaces. -/
def apply_influence (v : VertWeights) (bw : ℕ × ℚ) : VertWeights :=
  let min_index := get_min_index v.ws
  if bw.2 > v.ws min_index then
    ⟨Function.update v.ids min_index bw.1, Function.update v.ws min_index bw.2⟩
  else
    v

/-- All raw contributions of a vertex applied in order
(the iteration over `ai_mesh->mBones` and their weight lists). -/
def apply_influences (contribs : List (ℕ × ℚ)) : VertWeights :=
  contribs.foldl apply_influence initVertWeights

/-- The renormalization loop of `process_mesh` (`model.cpp:268-282`):
divide by the weight total if it is positive, otherwise pin the vertex
to bone 0 with weight 1. -/
def normalize_vert (v : VertWeights) : VertWeights :=
  let weight_total := v.ws 0 + v.ws 1 + v.ws 2 + v.ws 3
  if weight_total > 0 then
    { v with ws := fun i => v.ws i / weight_total }
  else
    ⟨Function.update v.ids 0 0, Function.update v.ws 0 1⟩

/-- Influence resolution of one vertex, end to end. -/
def resolve_influences (contribs : List (ℕ × ℚ)) : VertWeights :=
  normalize_vert (apply_influences contribs)

mutual

/-- `should_include` of `gather_bones`, computed directly on the tree: a
node is included iff it is directly skinned or some strict descendant
is. -/
def subtree_has_bone (bone_offsets : List (String × Mat4)) : AiNode → Bool
  | .mk nm _ _ cs =>
    (bone_offsets.lookup nm).isSome || subtree_has_bone_list bone_offsets cs

/-- `subtree_has_bone` over a list of children. -/
def subtree_has_bone_list (bone_offsets : List (String × Mat4)) :
    List AiNode → Bool
  | [] => false
  | n :: rest =>
    subtree_has_bone bone_offsets n || subtree_has_bone_list bone_offsets rest

end

mutual

/-- Names of the nodes `gather_bones` includes as bones in a subtree, in
insertion order: a node is a bone iff it is directly skinned or has a
directly-skinned strict descendant (equivalently, is an ancestor of an
included bone). -/
def spec_included_names (bone_offsets : List (String × Mat4)) :
    AiNode → List String
  | .mk nm tf ms cs =>
    spec_included_names_list bone_offsets cs ++
      (if subtree_has_bone bone_offsets (.mk nm tf ms cs) then [nm] else [])

/-- `spec_included_names` over a list of children. -/
def spec_included_names_list (bone_offsets : List (String × Mat4)) :
    List AiNode → List String
  | [] => []
  | n :: rest =>
    spec_included_names bone_offsets n ++
      spec_included_names_list bone_offsets rest

end

mutual

/-- Names of the nodes `gather_bones` records as bone ends in a subtree
(given whether the *direct parent* is directly skinned), in insertion
order: a node is an end marker iff it is not included (neither itself
nor any strict descendant is directly skinned) and its direct parent is
directly skinned. -/
def spec_end_names (bone_offsets : List (String × Mat4))
    (is_parent_bone : Bool) : AiNode → List String
  | .mk nm tf ms cs =>
    spec_end_names_list bone_offsets ((bone_offsets.lookup nm).isSome) cs ++
      (if ¬subtree_has_bone bone_offsets (.mk nm tf ms cs) ∧ is_parent_bone
        then [nm] else [])

/-- `spec_end_names` over a list of children. -/
def spec_end_names_list (bone_offsets : List (String × Mat4))
    (is_parent_bone : Bool) : List AiNode → List String
  | [] => []
  | n :: rest =>
    spec_end_names bone_offsets is_parent_bone n ++
      spec_end_names_list bone_offsets is_parent_bone rest

end

/-- Reference recursion for the global pose: follow the parent chain
(guarded by `parent < i` so that it is well defined even without the
parent-before-child hypothesis). -/
def spec_global (model : Model) (local_pose : Pose) (i : ℕ) : Mat4 :=
  if h : model.parent_ids i < model.n_bones ∧ model.parent_ids i < i then
    spec_global model local_pose (model.parent_ids i) * local_pose i
  else
    local_pose i
termination_by i
decreasing_by
  exact h.2

/-- The multiset of the four (bone id, weight) slots of a vertex. -/
def slotPairs (v : VertWeights) : Multiset (ℕ × ℚ) :=
  {(v.ids 0, v.ws 0), (v.ids 1, v.ws 1), (v.ids 2, v.ws 2), (v.ids 3, v.ws 3)}

/-- A trivial quaternion interpolator standing in for `glm::mix` on
quaternions in witnesses (the theorems hold for every interpolator). -/
def trivQmix : Quat → Quat → ℚ → Quat := fun a _ _ => a

/-- The identity quaternion. -/
def idQuat : Quat := ⟨1, 0, 0, 0⟩

/-- The zero vector. -/
def zeroVec3 : Vec3 := ⟨0, 0, 0⟩

/-- A concrete 2-bone model used by witnesses: bone 1 is the (parentless)
root node's bone, bone 2 its child; slot 0 is the reserved root slot. -/
def witModel : Model where
  n_meshes := 0
  n_bones := 3
  bone_mapping := [("A", 1), ("B", 2)]
  parent_ids := fun i => if i = 2 then 1 else MAX_BONES
  bone_ends := []
  offsets := fun _ => 1
  default_pose := fun _ => 1
  default_pose_prs := fun _ => ⟨zeroVec3, idQuat, ⟨1, 1, 1⟩⟩

/-- A concrete animation used by witnesses: duration 10, one channel on
bone 2 with the two position keys of the spec scenario. -/
def witAnim : Animation where
  duration := 10
  n_channels := 1
  channels := fun i =>
    if i = 0 then
      ⟨2, [⟨0, zeroVec3⟩, ⟨10, ⟨0, 5, 0⟩⟩], []⟩
    else
      ⟨0, [], []⟩

/-- The `gather_bones` state produced inside `process_bones` for a
scene: offsets collected from the mesh bindings, traversal from the
scene root. -/
def gatherOf (inv : Mat4 → Mat4) (scene : AiScene) : GatherState :=
  (gather_bones (collect_bone_offsets inv scene.meshes scene.rootNode 1 [])
    scene.rootNode none false 0 ⟨[], [], 0⟩).1

mutual

/-- Names of all strict descendants of a node. -/
def allDescendantNames : AiNode → List String
  | .mk _ _ _ cs => allDescendantNamesList cs

/-- `allDescendantNames` over a list of subtrees (the subtree roots
included). -/
def allDescendantNamesList : List AiNode → List String
  | [] => []
  | n :: rest =>
    (n.name :: allDescendantNames n) ++ allDescendantNamesList rest

end

/-- A stand-in for `mat4_to_pos_rot_scale` in concrete scenes (the real
decomposition needs square roots; no claim inspects the values it
produces). -/
def trivPrs : Mat4 → PosRotScale := fun _ => ⟨zeroVec3, idQuat, ⟨1, 1, 1⟩⟩

/-- A caller's zero-initialized `Model` (`Model mario;` in `main.cpp`
value-patterns: counters 0, arrays all-zero; the C++ arrays are
indeterminate, of which all-zeros is one possible execution). -/
def zeroModel : Model :=
  ⟨0, 0, [], fun _ => 0, [], fun _ => 1, fun _ => 1,
   fun _ => ⟨zeroVec3, idQuat, ⟨1, 1, 1⟩⟩⟩

/-- A caller's fresh `Animation` (empty key vectors, counters 0). -/
def zeroAnim : Animation := ⟨0, 0, fun _ => ⟨0, [], []⟩⟩

/-- A scene whose root node carries 21 mesh references — one more than
`MAX_MESHES`. -/
def cexMeshScene : AiScene := ⟨.mk "Root" 1 (List.range 21) [], [], []⟩

/-- A scene with one bone (`Root`, directly skinned) and one animation
whose single track names a node (`Ghost`) outside the bone set. -/
def cexAnimScene : AiScene :=
  ⟨.mk "Root" 1 [0] [], [⟨[⟨"Root", 1⟩]⟩],
   [⟨5, [⟨"Ghost", [⟨0, zeroVec3⟩], []⟩]⟩]⟩

/-- A scene with two skinned nodes, `Root` and its child `Child`. -/
def cexBoneScene : AiScene :=
  ⟨.mk "Root" 1 [0] [.mk "Child" 1 [] []],
   [⟨[⟨"Root", 1⟩, ⟨"Child", 1⟩]⟩], []⟩

/-- A scene with a chain `Root → B → C` where only `Root` is skinned:
`B` and `C` are descendants of the bone `Root` with no bone descendants
of their own. -/
def cexEndScene : AiScene :=
  ⟨.mk "Root" 1 [0] [.mk "B" 1 [] [.mk "C" 1 [] []]], [⟨[⟨"Root", 1⟩]⟩], []⟩

/-- The bone-offset map `process_bones` builds for `cexEndScene`. -/
def cexEndOffsets : List (String × Mat4) :=
  collect_bone_offsets id cexEndScene.meshes cexEndScene.rootNode 1 []

/-- The `gather_bones` output for `cexEndScene`. -/
def cexEndGather : GatherState :=
  (gather_bones cexEndOffsets cexEndScene.rootNode none false 0 ⟨[], [], 0⟩).1

/-- A one-bone model whose default decomposed pose has position
`(5,0,0)`, so its `to_mat4` differs from the identity matrix in entry
`(0,3)`. -/
def cexOobModel : Model where
  n_meshes := 0
  n_bones := 1
  bone_mapping := []
  parent_ids := fun _ => MAX_BONES
  bone_ends := []
  offsets := fun _ => 1
  default_pose := fun _ => 1
  default_pose_prs := fun _ => ⟨⟨5, 0, 0⟩, idQuat, ⟨1, 1, 1⟩⟩

/-- An animation whose single channel carries `bone_id = 50` — far above
`cexOobModel.n_bones` — with empty key arrays (the shape a dropped
track's slot can take, its `bone_id` being left indeterminate). -/
def cexOobAnim : Animation := ⟨10, 1, fun _ => ⟨50, [], []⟩⟩

theorem loopedTime_add_int_mul (d t : ℚ) (k : ℤ) (hd : d ≠ 0) :
    loopedTime d (t + k * d) = loopedTime d t := by
  unfold loopedTime
  have h1 : (t + (k : ℚ) * d) / d = t / d + (k : ℚ) := by
    field_simp
  rw [h1, Int.floor_add_int]
  push_cast
  ring

theorem loopedTime_mem (d s : ℚ) (hd : 0 < d) :
    0 ≤ loopedTime d s ∧ loopedTime d s < d := by
  unfold loopedTime
  have h1 : (⌊s / d⌋ : ℚ) ≤ s / d := Int.floor_le _
  have h2 : s / d < ⌊s / d⌋ + 1 := Int.lt_floor_add_one _
  have h4 : s / d * d = s := div_mul_cancel₀ s hd.ne.symm
  have h3 : (⌊s / d⌋ : ℚ) * d ≤ s / d * d := mul_le_mul_of_nonneg_right h1 hd.le
  have h5 : s / d * d < ((⌊s / d⌋ : ℚ) + 1) * d := mul_lt_mul_of_pos_right h2 hd
  constructor
  · linarith
  · linarith [h5, h4]

theorem foldl_update_preserve {α : Type} (w : ℕ → ℕ) (g : ℕ → α)
    (l : List ℕ) (p : ℕ → α) (j : ℕ) (hj : ∀ i ∈ l, w i ≠ j) :
    (l.foldl (fun q i => Function.update q (w i) (g i)) p) j = p j := by
  induction l generalizing p with
  | nil => rfl
  | cons a rest ih =>
    rw [List.foldl_cons, ih _ (fun i hi => hj i (List.mem_cons_of_mem _ hi))]
    exact Function.update_noteq (Ne.symm (hj a (List.mem_cons_self _ _))) _ _

/-- **C9.** Playback always loops: for duration `> 0` and `0 ≤ t <
duration`, `update_pose` at time `duration + t` produces the same pose
as at time `t` (the argument is scaled by the frame-rate factor 24 and
then wrapped into `[0, duration)` by the floor-based modulo, and the
wrapped value always lies in `[0, duration)`). -/
theorem update_pose_looping (qmix : Quat → Quat → ℚ → Quat) (ubV : Vec3)
    (ubQ : Quat) (model : Model) (pose : Pose) (animation : Animation)
    (t : ℚ) (hdur : 0 < animation.duration) (ht0 : 0 ≤ t)
    (ht1 : t < animation.duration) :
    update_pose qmix ubV ubQ model pose animation (animation.duration + t) =
      update_pose qmix ubV ubQ model pose animation t ∧
    ∀ s : ℚ, 0 ≤ loopedTime animation.duration s ∧
      loopedTime animation.duration s < animation.duration := by
  constructor
  · have h2 : (animation.duration + t) * 24 =
        t * 24 + ((24 : ℤ) : ℚ) * animation.duration := by
      push_cast
      ring
    have key : loopedTime animation.duration ((animation.duration + t) * 24) =
        loopedTime animation.duration (t * 24) := by
      rw [h2, loopedTime_add_int_mul _ _ 24 (ne_of_gt hdur)]
    simp only [update_pose]
    rw [key]
  · exact fun s => loopedTime_mem _ s hdur

/-- Witness for `update_pose_looping` at a concrete model, animation and
time. -/
theorem update_pose_looping_witness :
    (0 : ℚ) < witAnim.duration ∧ (0 : ℚ) ≤ 3 ∧ (3 : ℚ) < witAnim.duration ∧
    (update_pose trivQmix zeroVec3 idQuat witModel (fun _ => 1) witAnim
        (witAnim.duration + 3) =
      update_pose trivQmix zeroVec3 idQuat witModel (fun _ => 1) witAnim 3 ∧
    ∀ s : ℚ, 0 ≤ loopedTime witAnim.duration s ∧
      loopedTime witAnim.duration s < witAnim.duration) := by
  refine ⟨by norm_num [witAnim], by norm_num, by norm_num [witAnim], ?_⟩
  exact update_pose_looping trivQmix zeroVec3 idQuat witModel (fun _ => 1)
    witAnim 3 (by norm_num [witAnim]) (by norm_num) (by norm_num [witAnim])

/-- **C10 (amended).** Provided every channel's bone id is below the
model's bone count — true of every channel the compiler maps, but not
guaranteed for a dropped track's slot, whose `bone_id` is left
indeterminate (see the counterexample) — `update_pose` writes only pose
entries at indices below `n_bones`: every entry of the caller's `Pose`
buffer at an index `≥ n_bones` is returned exactly as provided. -/
theorem update_pose_writes_below_nbones (qmix : Quat → Quat → ℚ → Quat)
    (ubV : Vec3) (ubQ : Quat) (model : Model) (pose : Pose)
    (animation : Animation) (time : ℚ)
    (hch : ∀ i < animation.n_channels,
      (animation.channels i).bone_id < model.n_bones) :
    ∀ j, model.n_bones ≤ j →
      update_pose qmix ubV ubQ model pose animation time j = pose j := by
  intro j hj
  simp only [update_pose]
  rw [foldl_update_preserve, foldl_update_preserve]
  · intro i hi
    exact Nat.ne_of_lt (lt_of_lt_of_le (List.mem_range.mp hi) hj)
  · intro i hi
    exact Nat.ne_of_lt
      (lt_of_lt_of_le (hch i (List.mem_range.mp hi)) hj)

/-- Witness for `update_pose_writes_below_nbones`: the concrete model
and animation satisfy the channel invariant and slot 50 of the buffer is
untouched. -/
theorem update_pose_writes_below_nbones_witness :
    (∀ i < witAnim.n_channels,
      (witAnim.channels i).bone_id < witModel.n_bones) ∧
    witModel.n_bones ≤ 50 ∧
    update_pose trivQmix zeroVec3 idQuat witModel (fun _ => 1) witAnim 7 50 =
      (fun _ => (1 : Mat4)) 50 := by
  have hinv : ∀ i < witAnim.n_channels,
      (witAnim.channels i).bone_id < witModel.n_bones := by
    intro i hi
    have h1 : i < 1 := by simpa [witAnim] using hi
    have h0 : i = 0 := by omega
    subst h0
    norm_num [witAnim, witModel]
  refine ⟨hinv, by norm_num [witModel], ?_⟩
  exact update_pose_writes_below_nbones trivQmix zeroVec3 idQuat witModel
    (fun _ => 1) witAnim 7 hinv 50 (by norm_num [witModel])

/-- **C10** (counterexample).  `update_pose` does *not* confine its
writes to indices below `n_bones` unconditionally: each channel write
targets `pose[channel.bone_id]` with no bound check (`model.cpp:447`),
so a channel carrying a bone id `≥ n_bones` overwrites the caller's
entry at that out-of-range index.  Here a model with one bone and an
animation whose single channel says `bone_id = 50` changes slot 50 of
the all-identity input buffer, refuting the claim that every entry at an
index `≥ n_bones` is left exactly as the caller provided it. -/
theorem update_pose_oob_write_cex :
    cexOobModel.n_bones ≤ 50 ∧
    update_pose trivQmix zeroVec3 idQuat cexOobModel (fun _ => 1)
      cexOobAnim 0 50 ≠ (fun _ => (1 : Mat4)) 50 := by
  refine ⟨by norm_num [cexOobModel], ?_⟩
  have e : update_pose trivQmix zeroVec3 idQuat cexOobModel (fun _ => 1)
      cexOobAnim 0 50 = (cexOobModel.default_pose_prs 50).to_mat4 := rfl
  have hval : (cexOobModel.default_pose_prs 50).to_mat4 0 3 = 5 := rfl
  have hone : ((fun _ => (1 : Mat4)) 50 : Mat4) 0 3 = 0 :=
    Matrix.one_apply_ne (by decide)
  intro h
  rw [e] at h
  have h03 := congrFun (congrFun h 0) 3
  rw [hval, hone] at h03
  exact absurd h03 (by norm_num)

/-- **C2** (code bug).  For a channel with position keys but *no*
rotation keys, the rotation branch of `update_pose` is still taken —
it is guarded by `position_keys.empty()` a second time instead of
`rotation_keys.empty()` — so the rotation is computed by `get_key_value`
on the *empty* rotation-key vector: `keys.front()` on an empty
`std::vector`, undefined behaviour.  In the embedding the result is the
unspecified value `ubQ` that such a read yields — for *every* `ubQ` —
not the bone's `default_pose_prs` rotation demanded by the spec. -/
theorem update_pose_empty_rotation_ub (ubQ : Quat) (t : ℚ) :
    (channelPRS trivQmix zeroVec3 ubQ witModel
        ⟨2, [⟨0, zeroVec3⟩], []⟩ t).rotation = ubQ := by
  simp [channelPRS, get_key_value]

/-- **C1** (code bug).  `load_model` performs no capacity check: for a
source asset whose root node carries 21 mesh references (one more than
`MAX_MESHES = 20`), the load *succeeds* (`true`) and `n_meshes` is
incremented to 21 — in the C++, `model->meshes[model->n_meshes++]` has
already written past the end of the static `std::array` (undefined
behaviour) instead of failing the load.  `process_bones` and the channel
loop are equally unchecked against `MAX_BONES`. -/
theorem load_model_capacity_overflow :
    (load_model id trivPrs (some cexMeshScene) zeroModel zeroAnim).1 = true ∧
    (load_model id trivPrs (some cexMeshScene) zeroModel
        zeroAnim).2.1.n_meshes = 21 ∧
    ¬ (load_model id trivPrs (some cexMeshScene) zeroModel
        zeroAnim).2.1.n_meshes ≤ MAX_MESHES := by
  decide

/-- **C5** (counterexample).  For the scene whose only track names the
non-bone node `Ghost`, the compiled animation's channel count is 1,
while the number of tracks whose node is in the bone-id map is 0: the
dropped track *does* consume a channel slot
(`animation->channels[animation->n_channels++]` increments before the
bone-mapping check), refuting the claim that the channel count equals
the number of mapped tracks. -/
theorem compile_animation_drop_cex :
    (load_model id trivPrs (some cexAnimScene) zeroModel
        zeroAnim).2.2.n_channels = 1 ∧
    ((cexAnimScene.animations.getD 0 ⟨0, []⟩).tracks.countP
      (fun tr => ((load_model id trivPrs (some cexAnimScene) zeroModel
        zeroAnim).2.1.bone_mapping.lookup tr.nodeName).isSome)) = 0 ∧
    ¬ (load_model id trivPrs (some cexAnimScene) zeroModel
        zeroAnim).2.2.n_channels = 0 := by
  decide

/-- **C3** (counterexample).  For the two-bone scene, the root node's
bone gets id 1 (id 0 is a reserved slot mapped to no node), and the root
bone — which has no bone parent — does *not* carry a sentinel parent id
`≥ n_bones`: its `parent_ids` entry is simply left at whatever the
caller's array held (here 0, the zero-initialized pattern), which is
`< n_bones`. -/
theorem process_bones_sentinel_cex :
    (process_bones id trivPrs cexBoneScene zeroModel).n_bones = 3 ∧
    (process_bones id trivPrs cexBoneScene zeroModel).bone_mapping.lookup
      "Root" = some 1 ∧
    (∀ p ∈ (process_bones id trivPrs cexBoneScene zeroModel).bone_mapping,
      p.2 ≠ 0) ∧
    (process_bones id trivPrs cexBoneScene zeroModel).parent_ids 1 = 0 ∧
    ¬ (process_bones id trivPrs cexBoneScene zeroModel).n_bones ≤
      (process_bones id trivPrs cexBoneScene zeroModel).parent_ids 1 := by
  decide

/-- **C4** (counterexample).  In the chain `Root → B → C` with only
`Root` skinned, `C` is a strict descendant of the included bone `Root`
and has no bone descendants, so the claim makes it an end marker; but
`gather_bones` records only `B` (whose *direct parent* is directly
skinned) as an end marker: `C` is neither a bone nor an end marker —
it is dropped entirely. -/
theorem gather_bones_end_marker_cex :
    cexEndGather.included.map BoneInfo.name = ["Root"] ∧
    "C" ∈ allDescendantNames cexEndScene.rootNode ∧
    subtree_has_bone cexEndOffsets (.mk "C" 1 [] []) = false ∧
    cexEndGather.ends.map EndInfo.name = ["B"] ∧
    ¬ "C" ∈ cexEndGather.ends.map EndInfo.name ∧
    ¬ "C" ∈ cexEndGather.included.map BoneInfo.name := by
  decide

theorem compile_track_n_channels (mapping : List (String × ℕ))
    (a : Animation) (tr : AiNodeAnim) :
    (compile_track mapping a tr).n_channels = a.n_channels + 1 := by
  unfold compile_track
  rcases mapping.lookup tr.nodeName with _ | bid <;> rfl

theorem compile_track_channels_ne (mapping : List (String × ℕ))
    (a : Animation) (tr : AiNodeAnim) (k : ℕ) (hk : k ≠ a.n_channels) :
    (compile_track mapping a tr).channels k = a.channels k := by
  unfold compile_track
  rcases mapping.lookup tr.nodeName with _ | bid
  · rfl
  · exact Function.update_noteq hk _ _

theorem compile_fold_n_channels (mapping : List (String × ℕ))
    (tracks : List AiNodeAnim) :
    ∀ a : Animation,
      (tracks.foldl (compile_track mapping) a).n_channels =
        a.n_channels + tracks.length := by
  induction tracks with
  | nil => intro a; simp
  | cons t rest ih =>
    intro a
    rw [List.foldl_cons, ih, compile_track_n_channels]
    simp
    omega

theorem compile_fold_preserves_low (mapping : List (String × ℕ))
    (tracks : List AiNodeAnim) :
    ∀ (a : Animation) (k : ℕ), k < a.n_channels →
      (tracks.foldl (compile_track mapping) a).channels k = a.channels k := by
  induction tracks with
  | nil => intro a k _; rfl
  | cons t rest ih =>
    intro a k hk
    rw [List.foldl_cons]
    rw [ih _ k (by rw [compile_track_n_channels]; omega)]
    exact compile_track_channels_ne mapping a t k (Nat.ne_of_lt hk)

theorem compile_fold_unmapped (mapping : List (String × ℕ))
    (tracks : List AiNodeAnim) :
    ∀ (a : Animation) (j : ℕ), j < tracks.length →
      mapping.lookup (tracks.getD j ⟨"", [], []⟩).nodeName = none →
      (tracks.foldl (compile_track mapping) a).channels (a.n_channels + j) =
        a.channels (a.n_channels + j) := by
  induction tracks with
  | nil =>
    intro a j hj _
    simp at hj
  | cons t rest ih =>
    intro a j hj hnone
    rw [List.foldl_cons]
    cases j with
    | zero =>
      have ht : mapping.lookup t.nodeName = none := by
        simpa using hnone
      have ha : compile_track mapping a t =
          { a with n_channels := a.n_channels + 1 } := by
        unfold compile_track
        rw [ht]
      rw [ha, compile_fold_preserves_low mapping rest _ (a.n_channels + 0)
        (by simp)]
    | succ j' =>
      have hgd : (t :: rest).getD (j' + 1) ⟨"", [], []⟩ =
          rest.getD j' ⟨"", [], []⟩ := rfl
      rw [hgd] at hnone
      have hlen : j' < rest.length := by
        simpa using hj
      have hidx : a.n_channels + (j' + 1) =
          (compile_track mapping a t).n_channels + j' := by
        rw [compile_track_n_channels]
        omega
      rw [hidx, ih _ j' hlen hnone, ← hidx]
      exact compile_track_channels_ne mapping a t _ (by omega)

/-- **C5** (amended).  The Animation Channel Compiler consumes one
channel slot per raw track — mapped or not — so the compiled channel
count is the caller's count plus the *total* number of tracks of the
first animation; a track whose node name is not in the bone-id map
leaves its slot's contents exactly as they were (for a fresh `Animation`
that slot keeps empty key arrays), and only mapped tracks fill bone id
and keys. -/
theorem compile_animation_slot_accounting (mapping : List (String × ℕ))
    (anim : AiAnimation) (rest : List AiAnimation) (a : Animation) :
    (compile_animation mapping (anim :: rest) a).n_channels =
      a.n_channels + anim.tracks.length ∧
    ∀ j, j < anim.tracks.length →
      mapping.lookup (anim.tracks.getD j ⟨"", [], []⟩).nodeName = none →
      (compile_animation mapping (anim :: rest) a).channels
          (a.n_channels + j) =
        a.channels (a.n_channels + j) := by
  constructor
  · show (anim.tracks.foldl (compile_track mapping)
      { a with duration := anim.duration }).n_channels = _
    rw [compile_fold_n_channels]
  · intro j hj hnone
    show (anim.tracks.foldl (compile_track mapping)
      { a with duration := anim.duration }).channels _ = _
    exact compile_fold_unmapped mapping anim.tracks _ j hj hnone

/-- Witness for `compile_animation_slot_accounting` on the concrete
unmapped-track animation of `cexAnimScene`. -/
theorem compile_animation_slot_accounting_witness :
    (compile_animation [("Root", 1)]
        [⟨5, [⟨"Ghost", [⟨0, zeroVec3⟩], []⟩]⟩] zeroAnim).n_channels =
      zeroAnim.n_channels + 1 ∧
    (0 : ℕ) < 1 ∧
    List.lookup "Ghost" [("Root", 1)] = none ∧
    (compile_animation [("Root", 1)]
        [⟨5, [⟨"Ghost", [⟨0, zeroVec3⟩], []⟩]⟩] zeroAnim).channels
        (zeroAnim.n_channels + 0) =
      zeroAnim.channels (zeroAnim.n_channels + 0) := by
  have h := compile_animation_slot_accounting [("Root", 1)]
    ⟨5, [⟨"Ghost", [⟨0, zeroVec3⟩], []⟩]⟩ [] zeroAnim
  exact ⟨h.1, by decide, by decide, h.2 0 (by decide) (by decide)⟩

theorem mem_of_lookup_eq_some {α β : Type} [BEq α] [LawfulBEq α]
    {k : α} {v : β} :
    ∀ {l : List (α × β)}, l.lookup k = some v → (k, v) ∈ l := by
  intro l
  induction l with
  | nil =>
    intro h
    simp [List.lookup] at h
  | cons p rest ih =>
    intro h
    rcases p with ⟨a, b⟩
    simp only [List.lookup] at h
    cases hka : (k == a) with
    | true =>
      rw [hka] at h
      simp only [Option.some.injEq] at h
      subst h
      have hk : k = a := eq_of_beq hka
      subst hk
      exact List.mem_cons_self _ _
    | false =>
      rw [hka] at h
      exact List.mem_cons_of_mem _ (ih h)


theorem assign_bone_n_bones (f : Mat4 → PosRotScale) (m : Model)
    (b : BoneInfo) : (assign_bone f m b).n_bones = m.n_bones + 1 := by
  simp only [assign_bone]
  split <;> (try split) <;> (try split) <;> rfl

theorem assign_bone_bone_ends (f : Mat4 → PosRotScale) (m : Model)
    (b : BoneInfo) : (assign_bone f m b).bone_ends = m.bone_ends := by
  simp only [assign_bone]
  split <;> (try split) <;> (try split) <;> rfl

theorem assign_bone_mapping_sub (f : Mat4 → PosRotScale) (m : Model)
    (b : BoneInfo) :
    ∀ p ∈ (assign_bone f m b).bone_mapping,
      p = (b.name, m.n_bones) ∨ p ∈ m.bone_mapping := by
  simp only [assign_bone]
  split <;> (try split) <;> (try split) <;>
    (intro p hp
     first
       | exact Or.inr hp
       | exact (List.mem_cons.mp hp).imp id id)

theorem assign_bone_parent_ids_cases (f : Mat4 → PosRotScale) (m : Model)
    (b : BoneInfo)
    (hmap : ∀ p ∈ m.bone_mapping, 1 ≤ p.2 ∧ p.2 < m.n_bones)
    (hself : b.parentName ≠ some b.name) (i : ℕ) :
    (assign_bone f m b).parent_ids i = m.parent_ids i ∨
      (assign_bone f m b).parent_ids i < i := by
  simp only [assign_bone]
  split <;> (try split) <;> (try split)
  all_goals try (exact Or.inl rfl)
  · rename_i pn hpn _x pid hlk hnm
    rw [if_pos hnm] at hlk
    have hlk1 : List.lookup pn ((b.name, m.n_bones) :: m.bone_mapping) =
        some pid := hlk
    have hpnne : pn ≠ b.name := by
      intro he
      exact hself (by rw [hpn, he])
    have hne : (pn == b.name) = false := beq_false_of_ne hpnne
    have hlk2 : List.lookup pn m.bone_mapping = some pid := by
      simpa only [List.lookup, hne] using hlk1
    have hpid : pid < m.n_bones := (hmap _ (mem_of_lookup_eq_some hlk2)).2
    show Function.update m.parent_ids m.n_bones pid i = m.parent_ids i ∨
      Function.update m.parent_ids m.n_bones pid i < i
    by_cases hi : i = m.n_bones
    · subst hi
      right
      rw [Function.update_same]
      exact hpid
    · left
      exact Function.update_noteq hi _ _
  · rename_i pn hpn _x pid hlk hnm
    rw [if_neg hnm] at hlk
    have hlk2 : List.lookup pn m.bone_mapping = some pid := hlk
    have hpid : pid < m.n_bones := (hmap _ (mem_of_lookup_eq_some hlk2)).2
    show Function.update m.parent_ids m.n_bones pid i = m.parent_ids i ∨
      Function.update m.parent_ids m.n_bones pid i < i
    by_cases hi : i = m.n_bones
    · subst hi
      right
      rw [Function.update_same]
      exact hpid
    · left
      exact Function.update_noteq hi _ _

theorem assign_fold_spec (f : Mat4 → PosRotScale) (bs : List BoneInfo) :
    ∀ m : Model,
      1 ≤ m.n_bones →
      (∀ p ∈ m.bone_mapping, 1 ≤ p.2 ∧ p.2 < m.n_bones) →
      (∀ b ∈ bs, b.parentName ≠ some b.name) →
      (bs.foldl (assign_bone f) m).n_bones = m.n_bones + bs.length ∧
      (∀ p ∈ (bs.foldl (assign_bone f) m).bone_mapping,
        1 ≤ p.2 ∧ p.2 < (bs.foldl (assign_bone f) m).n_bones) ∧
      (∀ i, (bs.foldl (assign_bone f) m).parent_ids i = m.parent_ids i ∨
        (bs.foldl (assign_bone f) m).parent_ids i < i) ∧
      (bs.foldl (assign_bone f) m).bone_ends = m.bone_ends := by
  induction bs with
  | nil =>
    intro m h1 h2 _
    exact ⟨by simp, fun p hp => h2 p hp, fun i => Or.inl rfl, rfl⟩
  | cons b rest ih =>
    intro m h1 h2 h3
    rw [List.foldl_cons]
    have hn' : (assign_bone f m b).n_bones = m.n_bones + 1 :=
      assign_bone_n_bones f m b
    have hmap' : ∀ p ∈ (assign_bone f m b).bone_mapping,
        1 ≤ p.2 ∧ p.2 < (assign_bone f m b).n_bones := by
      intro p hp
      rcases assign_bone_mapping_sub f m b p hp with h | h
      · rw [h, hn']
        simp
        omega
      · have := h2 p h
        rw [hn']
        omega
    have hpar' := assign_bone_parent_ids_cases f m b h2
      (h3 b (List.mem_cons_self _ _))
    obtain ⟨ihn, ihmap, ihpar, ihends⟩ := ih (assign_bone f m b)
      (by omega) hmap' (fun b' hb' => h3 b' (List.mem_cons_of_mem _ hb'))
    refine ⟨?_, ihmap, ?_, ?_⟩
    · rw [ihn, hn']
      simp
      omega
    · intro i
      rcases ihpar i with h | h
      · rw [h]
        exact hpar' i
      · exact Or.inr h
    · rw [ihends]
      exact assign_bone_bone_ends f m b

theorem assign_bone_parent_ids_le (f : Mat4 → PosRotScale) (m : Model)
    (b : BoneInfo)
    (hmap : ∀ p ∈ m.bone_mapping, 1 ≤ p.2 ∧ p.2 < m.n_bones) (i : ℕ) :
    (assign_bone f m b).parent_ids i = m.parent_ids i ∨
      (assign_bone f m b).parent_ids i ≤ i := by
  simp only [assign_bone]
  split <;> (try split) <;> (try split)
  all_goals try (exact Or.inl rfl)
  · rename_i pn hpn _x pid hlk hnm
    rw [if_pos hnm] at hlk
    have hlk1 : List.lookup pn ((b.name, m.n_bones) :: m.bone_mapping) =
        some pid := hlk
    have hpid : pid ≤ m.n_bones := by
      rcases List.mem_cons.mp (mem_of_lookup_eq_some hlk1) with h | h
      · have h2 : pid = m.n_bones := congrArg Prod.snd h
        omega
      · exact le_of_lt (hmap _ h).2
    show Function.update m.parent_ids m.n_bones pid i = m.parent_ids i ∨
      Function.update m.parent_ids m.n_bones pid i ≤ i
    by_cases hi : i = m.n_bones
    · subst hi
      right
      rw [Function.update_same]
      exact hpid
    · left
      exact Function.update_noteq hi _ _
  · rename_i pn hpn _x pid hlk hnm
    rw [if_neg hnm] at hlk
    have hlk2 : List.lookup pn m.bone_mapping = some pid := hlk
    have hpid : pid ≤ m.n_bones :=
      le_of_lt (hmap _ (mem_of_lookup_eq_some hlk2)).2
    show Function.update m.parent_ids m.n_bones pid i = m.parent_ids i ∨
      Function.update m.parent_ids m.n_bones pid i ≤ i
    by_cases hi : i = m.n_bones
    · subst hi
      right
      rw [Function.update_same]
      exact hpid
    · left
      exact Function.update_noteq hi _ _

theorem assign_fold_spec_le (f : Mat4 → PosRotScale) (bs : List BoneInfo) :
    ∀ m : Model,
      1 ≤ m.n_bones →
      (∀ p ∈ m.bone_mapping, 1 ≤ p.2 ∧ p.2 < m.n_bones) →
      (bs.foldl (assign_bone f) m).n_bones = m.n_bones + bs.length ∧
      (∀ p ∈ (bs.foldl (assign_bone f) m).bone_mapping,
        1 ≤ p.2 ∧ p.2 < (bs.foldl (assign_bone f) m).n_bones) ∧
      (∀ i, (bs.foldl (assign_bone f) m).parent_ids i = m.parent_ids i ∨
        (bs.foldl (assign_bone f) m).parent_ids i ≤ i) ∧
      (bs.foldl (assign_bone f) m).bone_ends = m.bone_ends := by
  induction bs with
  | nil =>
    intro m h1 h2
    exact ⟨by simp, fun p hp => h2 p hp, fun i => Or.inl rfl, rfl⟩
  | cons b rest ih =>
    intro m h1 h2
    rw [List.foldl_cons]
    have hn' : (assign_bone f m b).n_bones = m.n_bones + 1 :=
      assign_bone_n_bones f m b
    have hmap' : ∀ p ∈ (assign_bone f m b).bone_mapping,
        1 ≤ p.2 ∧ p.2 < (assign_bone f m b).n_bones := by
      intro p hp
      rcases assign_bone_mapping_sub f m b p hp with h | h
      · rw [h, hn']
        simp
        omega
      · have := h2 p h
        rw [hn']
        omega
    have hpar' := assign_bone_parent_ids_le f m b h2
    obtain ⟨ihn, ihmap, ihpar, ihends⟩ := ih (assign_bone f m b)
      (by omega) hmap'
    refine ⟨?_, ihmap, ?_, ?_⟩
    · rw [ihn, hn']
      simp
      omega
    · intro i
      rcases ihpar i with h | h
      · rw [h]
        exact hpar' i
      · exact Or.inr h
    · rw [ihends]
      exact assign_bone_bone_ends f m b

/-- **C3 (amended).**  For every loaded model the ids occupy
`0..n_bones-1` with slot 0 an implicit reserved root slot mapped to no
node: `n_bones` is 1 (the reserved slot) plus the number of gathered
bones, every name-mapped bone id lies in `1..n_bones-1`, and every
`parent_ids` entry is either *left at whatever the caller's array
previously held* (no `none` sentinel is ever written for a parentless
bone — the original claim's sentinel clause fails, see the
counterexample) or is a recorded parent id that is at most its own
index; the recorded id is *strictly* below its index provided no
gathered bone shares its parent's name — the bone's own name→id entry
is inserted into the map just before its parent is looked up
(`model.cpp:210-214`), so a node named like its parent records its own
id, `parent_ids[i] = i`. -/
theorem process_bones_bone_ids (inv : Mat4 → Mat4)
    (f : Mat4 → PosRotScale) (scene : AiScene) (init : Model)
    (hn : init.n_bones = 0) (hmap : init.bone_mapping = []) :
    (process_bones inv f scene init).n_bones =
      1 + (sortBones (gatherOf inv scene).included).length ∧
    (∀ p ∈ (process_bones inv f scene init).bone_mapping,
      1 ≤ p.2 ∧ p.2 < (process_bones inv f scene init).n_bones) ∧
    (∀ i, (process_bones inv f scene init).parent_ids i =
        init.parent_ids i ∨
      (process_bones inv f scene init).parent_ids i ≤ i) ∧
    ((∀ b ∈ sortBones (gatherOf inv scene).included,
        b.parentName ≠ some b.name) →
      ∀ i, (process_bones inv f scene init).parent_ids i =
          init.parent_ids i ∨
        (process_bones inv f scene init).parent_ids i < i) := by
  have hbase1 : 1 ≤ (({ init with n_bones := init.n_bones + 1 } :
      Model)).n_bones := by
    simp
  have hbase2 : ∀ p ∈ ({ init with n_bones := init.n_bones + 1 } :
      Model).bone_mapping, 1 ≤ p.2 ∧ p.2 <
      ({ init with n_bones := init.n_bones + 1 } : Model).n_bones := by
    intro p hp
    rw [show ({ init with n_bones := init.n_bones + 1 } :
      Model).bone_mapping = init.bone_mapping from rfl, hmap] at hp
    simp at hp
  obtain ⟨hA, hB, hC, _⟩ := assign_fold_spec_le f
    (sortBones (gatherOf inv scene).included)
    { init with n_bones := init.n_bones + 1 } hbase1 hbase2
  have e1 : (process_bones inv f scene init).n_bones =
      ((sortBones (gatherOf inv scene).included).foldl (assign_bone f)
        { init with n_bones := init.n_bones + 1 }).n_bones := rfl
  have e2 : (process_bones inv f scene init).bone_mapping =
      ((sortBones (gatherOf inv scene).included).foldl (assign_bone f)
        { init with n_bones := init.n_bones + 1 }).bone_mapping := rfl
  have e3 : (process_bones inv f scene init).parent_ids =
      ((sortBones (gatherOf inv scene).included).foldl (assign_bone f)
        { init with n_bones := init.n_bones + 1 }).parent_ids := rfl
  refine ⟨?_, ?_, ?_, ?_⟩
  · rw [e1, hA]
    simp [hn]
  · intro p hp
    rw [e2] at hp
    rw [e1]
    exact hB p hp
  · intro i
    rw [e3]
    exact hC i
  · intro hself i
    obtain ⟨_, _, hClt, _⟩ := assign_fold_spec f
      (sortBones (gatherOf inv scene).included)
      { init with n_bones := init.n_bones + 1 } hbase1 hbase2 hself
    rw [e3]
    exact hClt i

/-- Witness for `process_bones_bone_ids` on the concrete two-bone scene,
with the strict conclusion also instantiated (no bone of the scene
shares its parent's name). -/
theorem process_bones_bone_ids_witness :
    zeroModel.n_bones = 0 ∧ zeroModel.bone_mapping = [] ∧
    ((process_bones id trivPrs cexBoneScene zeroModel).n_bones =
      1 + (sortBones (gatherOf id cexBoneScene).included).length ∧
    (∀ p ∈ (process_bones id trivPrs cexBoneScene zeroModel).bone_mapping,
      1 ≤ p.2 ∧
        p.2 < (process_bones id trivPrs cexBoneScene zeroModel).n_bones) ∧
    (∀ i, (process_bones id trivPrs cexBoneScene zeroModel).parent_ids i =
        zeroModel.parent_ids i ∨
      (process_bones id trivPrs cexBoneScene zeroModel).parent_ids i ≤ i) ∧
    ((∀ b ∈ sortBones (gatherOf id cexBoneScene).included,
        b.parentName ≠ some b.name) →
      ∀ i, (process_bones id trivPrs cexBoneScene zeroModel).parent_ids i =
          zeroModel.parent_ids i ∨
        (process_bones id trivPrs cexBoneScene zeroModel).parent_ids i < i)) ∧
    (∀ i, (process_bones id trivPrs cexBoneScene zeroModel).parent_ids i =
        zeroModel.parent_ids i ∨
      (process_bones id trivPrs cexBoneScene zeroModel).parent_ids i < i) := by
  have h := process_bones_bone_ids id trivPrs cexBoneScene zeroModel rfl rfl
  exact ⟨rfl, rfl, h, h.2.2.2 (by decide)⟩


mutual

theorem gather_bones_spec (off : List (String × Mat4)) (n : AiNode) :
    ∀ (pn : Option String) (pb : Bool) (d : ℕ) (st : GatherState),
    ((gather_bones off n pn pb d st).1.included.map BoneInfo.name =
      st.included.map BoneInfo.name ++ spec_included_names off n) ∧
    ((gather_bones off n pn pb d st).1.ends.map EndInfo.name =
      st.ends.map EndInfo.name ++ spec_end_names off pb n) ∧
    ((gather_bones off n pn pb d st).2 = subtree_has_bone off n) := by
  intro pn pb d st
  cases n with
  | mk nm tf ms cs =>
    obtain ⟨h1, h2, h3⟩ := gather_bones_list_spec off cs (some nm)
      ((off.lookup nm).isSome) (d + 1) { st with nextId := st.nextId + 1 }
    simp only [gather_bones]
    rcases hres : gather_bones_list off cs (some nm)
        ((off.lookup nm).isSome) (d + 1)
        { st with nextId := st.nextId + 1 } with ⟨st2, childInc⟩
    rw [hres] at h1 h2 h3
    simp only at h1 h2 h3
    have heqsub : subtree_has_bone off (.mk nm tf ms cs) =
        ((off.lookup nm).isSome || subtree_has_bone_list off cs) := rfl
    by_cases hsi : ((off.lookup nm).isSome || childInc) = true
    · have hsub : subtree_has_bone off (.mk nm tf ms cs) = true := by
        rw [heqsub, ← h3]
        exact hsi
      rw [if_pos hsi]
      refine ⟨?_, ?_, hsub.symm⟩
      · simp [spec_included_names, hsub, h1, BoneInfo.name]
      · simp [spec_end_names, hsub, h2]
    · have hsub : subtree_has_bone off (.mk nm tf ms cs) = false := by
        simp only [Bool.not_eq_true] at hsi
        rw [heqsub, ← h3]
        exact hsi
      rw [if_neg hsi]
      by_cases hpb : pb = true
      · rw [if_pos hpb]
        refine ⟨?_, ?_, hsub.symm⟩
        · simp [spec_included_names, hsub, h1]
        · simp [spec_end_names, hsub, hpb, h2, EndInfo.name]
      · rw [if_neg hpb]
        refine ⟨?_, ?_, hsub.symm⟩
        · simp [spec_included_names, hsub, h1]
        · simp [spec_end_names, hsub, hpb, h2]

theorem gather_bones_list_spec (off : List (String × Mat4))
    (ns : List AiNode) :
    ∀ (pn : Option String) (pb : Bool) (d : ℕ) (st : GatherState),
    ((gather_bones_list off ns pn pb d st).1.included.map BoneInfo.name =
      st.included.map BoneInfo.name ++ spec_included_names_list off ns) ∧
    ((gather_bones_list off ns pn pb d st).1.ends.map EndInfo.name =
      st.ends.map EndInfo.name ++ spec_end_names_list off pb ns) ∧
    ((gather_bones_list off ns pn pb d st).2 =
      subtree_has_bone_list off ns) := by
  intro pn pb d st
  cases ns with
  | nil =>
    simp [gather_bones_list, spec_included_names_list, spec_end_names_list,
      subtree_has_bone_list]
  | cons n rest =>
    obtain ⟨a1, a2, a3⟩ := gather_bones_spec off n pn pb d st
    rcases hr1 : gather_bones off n pn pb d st with ⟨stA, bA⟩
    rw [hr1] at a1 a2 a3
    simp only at a1 a2 a3
    obtain ⟨b1, b2, b3⟩ := gather_bones_list_spec off rest pn pb d stA
    rcases hr2 : gather_bones_list off rest pn pb d stA with ⟨stB, bB⟩
    rw [hr2] at b1 b2 b3
    simp only at b1 b2 b3
    simp only [gather_bones_list]
    rw [hr1, hr2]
    refine ⟨?_, ?_, ?_⟩
    · simp [b1, a1, spec_included_names_list]
    · simp [b2, a2, spec_end_names_list]
    · simp [b3, a3, subtree_has_bone_list]

end

/-- **C4 (amended).**  `gather_bones` includes a node as a bone iff it
is directly skinned or has a directly-skinned strict descendant
(equivalently: iff it is directly skinned or an ancestor of an included
bone) — that half of the original claim holds.  A node becomes an end
marker iff it is *not* included and its **direct parent is directly
skinned** (`is_parent_bone` is the parent's own `is_bone` flag): deeper
descendants of a bone whose direct parent is not directly skinned are
dropped entirely, neither bone nor end marker (see the counterexample).
Stated as: the gathered bone names and end-marker names equal the
transparent reference recursions `spec_included_names` /
`spec_end_names`, and the returned flag is `subtree_has_bone`. -/
theorem gather_bones_characterization (off : List (String × Mat4))
    (root : AiNode) :
    ((gather_bones off root none false 0 ⟨[], [], 0⟩).1.included.map
        BoneInfo.name = spec_included_names off root) ∧
    ((gather_bones off root none false 0 ⟨[], [], 0⟩).1.ends.map
        EndInfo.name = spec_end_names off false root) ∧
    ((gather_bones off root none false 0 ⟨[], [], 0⟩).2 =
      subtree_has_bone off root) := by
  obtain ⟨h1, h2, h3⟩ := gather_bones_spec off root none false 0 ⟨[], [], 0⟩
  constructor
  · simpa using h1
  · constructor
    · simpa using h2
    · exact h3

theorem global_fold_spec (model : Model) (local_pose : Pose) (init : Pose)
    (hpar : ∀ i < model.n_bones,
      model.parent_ids i < i ∨ model.n_bones ≤ model.parent_ids i) :
    ∀ k, k ≤ model.n_bones → ∀ i < k,
      ((List.range k).foldl
        (fun g j => Function.update g j
          (if model.parent_ids j < model.n_bones then
            g (model.parent_ids j) * local_pose j
          else
            local_pose j)) init) i =
        spec_global model local_pose i := by
  intro k
  induction k with
  | zero =>
    intro _ i hi
    omega
  | succ k ih =>
    intro hk i hi
    rw [List.range_succ, List.foldl_append, List.foldl_cons, List.foldl_nil]
    by_cases hik : i = k
    · subst hik
      rw [Function.update_same]
      by_cases hp : model.parent_ids i < model.n_bones
      · rw [if_pos hp]
        have hpi : model.parent_ids i < i := by
          rcases hpar i (by omega) with h | h
          · exact h
          · omega
        rw [ih (by omega) _ hpi]
        conv_rhs => rw [spec_global]
        rw [dif_pos ⟨hp, hpi⟩]
      · rw [if_neg hp]
        conv_rhs => rw [spec_global]
        rw [dif_neg (fun hc => hp hc.1)]
    · rw [Function.update_noteq hik]
      exact ih (by omega) i (by omega)

theorem offsets_fold_spec (off : Pose) (p : Pose) :
    ∀ (k : ℕ) (i : ℕ),
      ((List.range k).foldl (fun g j => Function.update g j (g j * off j)) p) i =
        if i < k then p i * off i else p i := by
  intro k
  induction k with
  | zero =>
    intro i
    simp
  | succ k ih =>
    intro i
    rw [List.range_succ, List.foldl_append, List.foldl_cons, List.foldl_nil]
    by_cases hik : i = k
    · subst hik
      rw [Function.update_same, ih]
      simp
    · rw [Function.update_noteq hik, ih]
      by_cases hlt : i < k
      · rw [if_pos hlt, if_pos (by omega)]
      · rw [if_neg hlt, if_neg (by omega)]

/-- **C8.**  The global pose resolver computes, in one forward pass over
bone ids (valid under the parent-before-child hypothesis — a parent id
is either below its bone's id or the out-of-range "no parent" value),
`global[i] = global[parent[i]] * local[i]` when bone `i` has a parent
and `global[i] = local[i]` otherwise; with `apply_offsets` every
in-range entry is additionally multiplied by the bind offset
(`skin[i] = global[i] * offset[i]`); in particular for a child `i` of a
root bone, the offsets-on result is
`local[parent[i]] * local[i] * offset[i]`. -/
theorem convert_local_to_global_recurrence (model : Model)
    (local_pose : Pose) (init : Pose)
    (hpar : ∀ i < model.n_bones,
      model.parent_ids i < i ∨ model.n_bones ≤ model.parent_ids i) :
    (∀ i < model.n_bones,
      convert_local_to_global_pose model local_pose false init i =
        if model.parent_ids i < model.n_bones then
          convert_local_to_global_pose model local_pose false init
            (model.parent_ids i) * local_pose i
        else
          local_pose i) ∧
    (∀ i < model.n_bones,
      convert_local_to_global_pose model local_pose true init i =
        convert_local_to_global_pose model local_pose false init i *
          model.offsets i) ∧
    (∀ i < model.n_bones, model.parent_ids i < model.n_bones →
      model.n_bones ≤ model.parent_ids (model.parent_ids i) →
      convert_local_to_global_pose model local_pose true init i =
        local_pose (model.parent_ids i) * local_pose i *
          model.offsets i) := by
  have hfalse : ∀ i < model.n_bones,
      convert_local_to_global_pose model local_pose false init i =
        spec_global model local_pose i := by
    intro i hi
    exact global_fold_spec model local_pose init hpar model.n_bones
      (le_refl _) i hi
  have htrue : ∀ i < model.n_bones,
      convert_local_to_global_pose model local_pose true init i =
        convert_local_to_global_pose model local_pose false init i *
          model.offsets i := by
    intro i hi
    have h := offsets_fold_spec model.offsets
      ((List.range model.n_bones).foldl
        (fun g j => Function.update g j
          (if model.parent_ids j < model.n_bones then
            g (model.parent_ids j) * local_pose j
          else
            local_pose j)) init) model.n_bones i
    rw [if_pos hi] at h
    exact h
  refine ⟨?_, htrue, ?_⟩
  · intro i hi
    by_cases hp : model.parent_ids i < model.n_bones
    · have hpi : model.parent_ids i < i := by
        rcases hpar i hi with h | h
        · exact h
        · omega
      rw [if_pos hp, hfalse i hi, hfalse _ (by omega)]
      conv_lhs => rw [spec_global]
      rw [dif_pos ⟨hp, hpi⟩]
    · rw [if_neg hp, hfalse i hi]
      conv_lhs => rw [spec_global]
      rw [dif_neg (fun hc => hp hc.1)]
  · intro i hi hp hroot
    have hpi : model.parent_ids i < i := by
      rcases hpar i hi with h | h
      · exact h
      · omega
    rw [htrue i hi, hfalse i hi]
    conv_lhs => rw [spec_global]
    rw [dif_pos ⟨hp, hpi⟩]
    conv_lhs => rw [spec_global]
    rw [dif_neg (fun hc => absurd hc.1 (by omega))]

/-- Witness for `convert_local_to_global_recurrence` on the concrete
two-bone model. -/
theorem convert_local_to_global_recurrence_witness :
    (∀ i < witModel.n_bones,
      witModel.parent_ids i < i ∨ witModel.n_bones ≤ witModel.parent_ids i) ∧
    ((∀ i < witModel.n_bones,
      convert_local_to_global_pose witModel (fun _ => 1) false (fun _ => 1) i =
        if witModel.parent_ids i < witModel.n_bones then
          convert_local_to_global_pose witModel (fun _ => 1) false
            (fun _ => 1) (witModel.parent_ids i) * (fun _ => (1 : Mat4)) i
        else
          (fun _ => (1 : Mat4)) i) ∧
    (∀ i < witModel.n_bones,
      convert_local_to_global_pose witModel (fun _ => 1) true (fun _ => 1) i =
        convert_local_to_global_pose witModel (fun _ => 1) false
          (fun _ => 1) i * witModel.offsets i) ∧
    (∀ i < witModel.n_bones,
      witModel.parent_ids i < witModel.n_bones →
      witModel.n_bones ≤ witModel.parent_ids (witModel.parent_ids i) →
      convert_local_to_global_pose witModel (fun _ => 1) true (fun _ => 1) i =
        (fun _ => (1 : Mat4)) (witModel.parent_ids i) *
          (fun _ => (1 : Mat4)) i * witModel.offsets i)) := by
  have hpar : ∀ i < witModel.n_bones,
      witModel.parent_ids i < i ∨ witModel.n_bones ≤ witModel.parent_ids i := by
    decide
  exact ⟨hpar,
    convert_local_to_global_recurrence witModel (fun _ => 1) (fun _ => 1) hpar⟩

theorem bsearchLoop_bracket {V : Type} (dflt : V) (keys : List (Key V))
    (time : ℚ) :
    ∀ (bbegin bend : ℕ),
      bbegin < bend → bend < keys.length →
      (keyAt dflt keys bbegin).time ≤ time →
      time < (keyAt dflt keys bend).time →
      bbegin ≤ bsearchLoop dflt keys time bbegin bend ∧
      bsearchLoop dflt keys time bbegin bend < bend ∧
      (keyAt dflt keys (bsearchLoop dflt keys time bbegin bend)).time ≤ time ∧
      time ≤ (keyAt dflt keys (bsearchLoop dflt keys time bbegin bend + 1)).time := by
  intro bbegin bend
  induction bbegin, bend using bsearchLoop.induct dflt keys time with
  | case1 bbegin bend hguard mid hmid ih =>
    intro h1 h2 h3 h4
    have hmdef : mid = bbegin + (bend - bbegin) / 2 := rfl
    have hmlt : mid < bend := by omega
    have hmgt : bbegin < mid := by omega
    have hres : bsearchLoop dflt keys time bbegin bend =
        bsearchLoop dflt keys time bbegin mid := by
      rw [bsearchLoop, if_pos hguard]
      rw [if_pos hmid]
    obtain ⟨i1, i2, i3, i4⟩ := ih hmgt (by omega) h3 hmid
    rw [hres]
    exact ⟨i1, by omega, i3, i4⟩
  | case2 bbegin bend hguard mid hmid hcond ih =>
    intro h1 h2 h3 h4
    have hmdef : mid = bbegin + (bend - bbegin) / 2 := rfl
    have hmlt : mid < bend := by omega
    have hc2 : (keyAt dflt keys (mid + 1)).time < time := hcond.2
    have hne : mid + 1 ≠ bend := by
      intro he
      rw [he] at hc2
      exact absurd hc2 (by linarith)
    have hres : bsearchLoop dflt keys time bbegin bend =
        bsearchLoop dflt keys time (mid + 1) bend := by
      rw [bsearchLoop, if_pos hguard]
      rw [if_neg hmid, if_pos hcond]
    obtain ⟨i1, i2, i3, i4⟩ := ih (by omega) h2 (le_of_lt hc2) h4
    rw [hres]
    exact ⟨by omega, i2, i3, i4⟩
  | case3 bbegin bend hguard mid hmid hcond =>
    intro h1 h2 h3 h4
    have hmdef : mid = bbegin + (bend - bbegin) / 2 := rfl
    have hmlt : mid < bend := by omega
    have hres : bsearchLoop dflt keys time bbegin bend = mid := by
      rw [bsearchLoop, if_pos hguard]
      rw [if_neg hmid, if_neg hcond]
    rw [hres]
    have hup : ¬ (keyAt dflt keys (mid + 1)).time < time := by
      intro hc
      exact hcond ⟨hmlt, hc⟩
    exact ⟨by omega, hmlt, by linarith [not_lt.mp hmid], not_lt.mp hup⟩
  | case4 bbegin bend hguard =>
    intro h1 h2 h3 h4
    have hres : bsearchLoop dflt keys time bbegin bend = bbegin := by
      rw [bsearchLoop, if_neg hguard]
    rw [hres]
    have hbe : bend = bbegin + 1 := by omega
    exact ⟨le_refl _, h1, h3, by rw [← hbe]; exact le_of_lt h4⟩

theorem vmix_zero (a b : Vec3) : vmix a b 0 = a := by
  cases a
  simp [vmix]

/-- **C6.**  For a non-empty, strictly time-sorted key array:
sampling below the first key's time returns the first key's value;
sampling at or above the last key's time returns the last key's value
(no extrapolation); otherwise the binary search finds a bracketing pair
of consecutive keys enclosing the sample time and the result is the
linear interpolation (`glm::mix`) of their values at the fractional
position of the time between the bracket times; in particular sampling
at time 0 with a first key at time 0 yields exactly the first keyframe
value. -/
theorem get_key_value_sampling (ub : Vec3) (keys : List (Key Vec3))
    (time : ℚ) (hne : keys ≠ [])
    (hsorted : ∀ i j, i < j → j < keys.length →
      (keyAt ub keys i).time < (keyAt ub keys j).time) :
    (time < (keyAt ub keys 0).time →
      get_key_value_vec3 ub keys time = (keyAt ub keys 0).value) ∧
    ((keyAt ub keys (keys.length - 1)).time ≤ time →
      get_key_value_vec3 ub keys time =
        (keyAt ub keys (keys.length - 1)).value) ∧
    ((keyAt ub keys 0).time ≤ time →
      time < (keyAt ub keys (keys.length - 1)).time →
      ∃ b, b + 1 < keys.length ∧
        (keyAt ub keys b).time ≤ time ∧
        time ≤ (keyAt ub keys (b + 1)).time ∧
        get_key_value_vec3 ub keys time =
          vmix (keyAt ub keys b).value (keyAt ub keys (b + 1)).value
            ((time - (keyAt ub keys b).time) /
              ((keyAt ub keys (b + 1)).time - (keyAt ub keys b).time))) ∧
    ((keyAt ub keys 0).time = 0 → time = 0 →
      time < (keyAt ub keys (keys.length - 1)).time →
      get_key_value_vec3 ub keys time = (keyAt ub keys 0).value) := by
  rcases hk : keys with _ | ⟨k0, rest⟩
  · exact absurd hk hne
  subst hk
  have hk0 : keyAt ub (k0 :: rest) 0 = k0 := rfl
  have hlenpos : 0 < (k0 :: rest).length := by simp
  have hunfoldlow : time < k0.time →
      get_key_value_vec3 ub (k0 :: rest) time = k0.value := by
    intro h
    unfold get_key_value_vec3 get_key_value
    simp only []
    rw [if_pos h]
  have hT0last : (keyAt ub (k0 :: rest) 0).time ≤
      (keyAt ub (k0 :: rest) ((k0 :: rest).length - 1)).time := by
    rcases Nat.eq_zero_or_pos ((k0 :: rest).length - 1) with h | h
    · rw [h]
    · exact le_of_lt (hsorted 0 _ h (by simp))
  refine ⟨hunfoldlow, ?_, ?_, ?_⟩
  · intro h
    have hnotlow : ¬ time < k0.time := by
      rw [hk0] at hT0last
      exact not_lt.mpr (le_trans hT0last h)
    unfold get_key_value_vec3 get_key_value
    simp only []
    rw [if_neg hnotlow, if_pos (by exact h)]
  · intro h0 hlast
    have hnotlow : ¬ time < k0.time := by
      rw [hk0] at h0
      exact not_lt.mpr h0
    have hnothigh : ¬ time ≥
        (keyAt ub (k0 :: rest) ((k0 :: rest).length - 1)).time :=
      not_le.mpr hlast
    have hlen1 : 0 < (k0 :: rest).length - 1 := by
      rcases Nat.eq_zero_or_pos ((k0 :: rest).length - 1) with h | h
      · rw [h] at hlast
        rw [hk0] at h0
        exact absurd (lt_of_le_of_lt h0 hlast) (lt_irrefl _)
      · exact h
    obtain ⟨b1, b2, b3, b4⟩ := bsearchLoop_bracket ub (k0 :: rest) time 0
      ((k0 :: rest).length - 1) hlen1 (by simp) (by rw [hk0] at h0; exact h0)
      hlast
    refine ⟨bsearchLoop ub (k0 :: rest) time 0 ((k0 :: rest).length - 1),
      by omega, b3, b4, ?_⟩
    unfold get_key_value_vec3 get_key_value
    simp only []
    rw [if_neg hnotlow, if_neg hnothigh]
  · intro h0 ht hlast
    have hnotlow : ¬ time < k0.time := by
      have hx : k0.time = 0 := by
        rw [← hk0]
        exact h0
      rw [hx, ht]
      exact lt_irrefl 0
    have hnothigh : ¬ time ≥
        (keyAt ub (k0 :: rest) ((k0 :: rest).length - 1)).time :=
      not_le.mpr hlast
    have hlen1 : 0 < (k0 :: rest).length - 1 := by
      rcases Nat.eq_zero_or_pos ((k0 :: rest).length - 1) with h | h
      · rw [h] at hlast
        rw [ht, h0] at hlast
        exact absurd hlast (lt_irrefl 0)
      · exact h
    obtain ⟨b1, b2, b3, b4⟩ := bsearchLoop_bracket ub (k0 :: rest) time 0
      ((k0 :: rest).length - 1) hlen1 (by simp)
      (by rw [h0, ht]) hlast
    have hb0 : bsearchLoop ub (k0 :: rest) time 0
        ((k0 :: rest).length - 1) = 0 := by
      by_contra hb
      have hpos : 0 < bsearchLoop ub (k0 :: rest) time 0
          ((k0 :: rest).length - 1) := Nat.pos_of_ne_zero hb
      have hlt := hsorted 0 _ hpos (by omega)
      rw [h0] at hlt
      exact absurd (lt_of_lt_of_le hlt (le_trans b3 (le_of_eq ht)))
        (lt_irrefl 0)
    unfold get_key_value_vec3 get_key_value
    simp only []
    rw [if_neg hnotlow, if_neg hnothigh]
    rw [hb0, ht, h0]
    simp [vmix_zero]

/-- Witness for `get_key_value_sampling` on the spec scenario keys
`[(t=0,(0,0,0)), (t=10,(0,5,0))]`: the hypotheses hold, the theorem
applies at `t = 5`, and the sampled value is exactly `(0, 5/2, 0)`. -/
theorem get_key_value_sampling_witness :
    ([⟨0, zeroVec3⟩, ⟨10, ⟨0, 5, 0⟩⟩] : List (Key Vec3)) ≠ [] ∧
    (∀ i j, i < j → j < ([⟨0, zeroVec3⟩, ⟨10, ⟨0, 5, 0⟩⟩] :
        List (Key Vec3)).length →
      (keyAt zeroVec3 [⟨0, zeroVec3⟩, ⟨10, ⟨0, 5, 0⟩⟩] i).time <
        (keyAt zeroVec3 [⟨0, zeroVec3⟩, ⟨10, ⟨0, 5, 0⟩⟩] j).time) ∧
    ((5 : ℚ) < (keyAt zeroVec3 [⟨0, zeroVec3⟩, ⟨10, ⟨0, 5, 0⟩⟩] 0).time →
      get_key_value_vec3 zeroVec3 [⟨0, zeroVec3⟩, ⟨10, ⟨0, 5, 0⟩⟩] 5 =
        (keyAt zeroVec3 [⟨0, zeroVec3⟩, ⟨10, ⟨0, 5, 0⟩⟩] 0).value) ∧
    get_key_value_vec3 zeroVec3 [⟨0, zeroVec3⟩, ⟨10, ⟨0, 5, 0⟩⟩] 5 =
      ⟨0, 5 / 2, 0⟩ := by
  have hs : ∀ i j, i < j → j < ([⟨0, zeroVec3⟩, ⟨10, ⟨0, 5, 0⟩⟩] :
      List (Key Vec3)).length →
      (keyAt zeroVec3 [⟨0, zeroVec3⟩, ⟨10, ⟨0, 5, 0⟩⟩] i).time <
        (keyAt zeroVec3 [⟨0, zeroVec3⟩, ⟨10, ⟨0, 5, 0⟩⟩] j).time := by
    intro i j hij hj
    have hj2 : j < 2 := by simpa using hj
    have hj1 : j = 1 := by omega
    have hi0 : i = 0 := by omega
    subst hj1
    subst hi0
    norm_num [keyAt, zeroVec3]
  have h := get_key_value_sampling zeroVec3 [⟨0, zeroVec3⟩, ⟨10, ⟨0, 5, 0⟩⟩]
    5 (by simp) hs
  refine ⟨by simp, hs, h.1, ?_⟩
  rw [show get_key_value_vec3 zeroVec3 [⟨0, zeroVec3⟩, ⟨10, ⟨0, 5, 0⟩⟩] 5 =
    vmix zeroVec3 ⟨0, 5, 0⟩ ((5 - 0) / (10 - 0)) from by
      unfold get_key_value_vec3 get_key_value
      simp only []
      rw [if_neg (by norm_num [keyAt, zeroVec3]),
        if_neg (by norm_num [keyAt])]
      rw [show bsearchLoop zeroVec3
          ([⟨0, zeroVec3⟩, ⟨10, ⟨0, 5, 0⟩⟩] : List (Key Vec3)) 5 0
          (([⟨0, zeroVec3⟩, ⟨10, ⟨0, 5, 0⟩⟩] : List (Key Vec3)).length - 1)
          = 0 from by rw [bsearchLoop]; norm_num]
      norm_num [keyAt, zeroVec3]]
  norm_num [vmix, zeroVec3]

theorem get_min_index_min (v : Fin 4 → ℚ) :
    ∀ i : Fin 4, v (get_min_index v) ≤ v i := by
  intro i
  unfold get_min_index
  by_cases h01 : v 0 < v 1 <;> by_cases h23 : v 2 < v 3 <;>
    simp only [h01, h23, if_true, if_false, ite_true, ite_false] <;>
    split_ifs <;> fin_cases i <;> simp_all <;> linarith

theorem apply_influence_eq (v : VertWeights) (bw : ℕ × ℚ) :
    apply_influence v bw =
      if bw.2 > v.ws (get_min_index v.ws) then
        (⟨Function.update v.ids (get_min_index v.ws) bw.1,
          Function.update v.ws (get_min_index v.ws) bw.2⟩ : VertWeights)
      else v := rfl

theorem apply_influence_mono (v : VertWeights) (bw : ℕ × ℚ) :
    ∀ i : Fin 4, v.ws i ≤ (apply_influence v bw).ws i := by
  intro i
  rw [apply_influence_eq]
  split_ifs with hacc
  · by_cases hi : i = get_min_index v.ws
    · subst hi
      show v.ws _ ≤ Function.update v.ws (get_min_index v.ws) bw.2 _
      rw [Function.update_same]
      exact le_of_lt hacc
    · show v.ws i ≤ Function.update v.ws (get_min_index v.ws) bw.2 i
      rw [Function.update_noteq hi]
  · exact le_refl _

theorem apply_fold_mono (contribs : List (ℕ × ℚ)) :
    ∀ (v : VertWeights) (i : Fin 4),
      v.ws i ≤ (contribs.foldl apply_influence v).ws i := by
  induction contribs with
  | nil =>
    intro v i
    exact le_refl _
  | cons c rest ih =>
    intro v i
    rw [List.foldl_cons]
    exact le_trans (apply_influence_mono v c i) (ih _ i)

theorem apply_influences_nonneg (contribs : List (ℕ × ℚ)) (i : Fin 4) :
    0 ≤ (apply_influences contribs).ws i :=
  apply_fold_mono contribs initVertWeights i

theorem slotPairs_update (v : VertWeights) (m : Fin 4) (b : ℕ) (w : ℚ) :
    slotPairs ⟨Function.update v.ids m b, Function.update v.ws m w⟩ +
      {(v.ids m, v.ws m)} = slotPairs v + {(b, w)} := by
  fin_cases m <;>
    · simp [slotPairs, Function.update]
      simp only [Multiset.insert_eq_cons, ← Multiset.singleton_add]
      abel

theorem apply_fold_account (contribs : List (ℕ × ℚ)) :
    ∀ v : VertWeights,
      ∃ dropped : Multiset (ℕ × ℚ),
        slotPairs (contribs.foldl apply_influence v) + dropped =
          slotPairs v + ↑contribs ∧
        ∀ d ∈ dropped, ∀ i : Fin 4,
          d.2 ≤ (contribs.foldl apply_influence v).ws i := by
  induction contribs with
  | nil =>
    intro v
    refine ⟨0, by simp, by simp⟩
  | cons c rest ih =>
    intro v
    rw [List.foldl_cons]
    obtain ⟨dropped, heq, hdom⟩ := ih (apply_influence v c)
    by_cases hacc : c.2 > v.ws (get_min_index v.ws)
    · have hai : apply_influence v c =
          (⟨Function.update v.ids (get_min_index v.ws) c.1,
            Function.update v.ws (get_min_index v.ws) c.2⟩ : VertWeights) := by
        rw [apply_influence_eq, if_pos hacc]
      refine ⟨dropped +
        {(v.ids (get_min_index v.ws), v.ws (get_min_index v.ws))}, ?_, ?_⟩
      · have hstep := slotPairs_update v (get_min_index v.ws) c.1 c.2
        rw [← hai] at hstep
        calc slotPairs (rest.foldl apply_influence (apply_influence v c)) +
              (dropped +
                {(v.ids (get_min_index v.ws), v.ws (get_min_index v.ws))})
            = (slotPairs (rest.foldl apply_influence (apply_influence v c)) +
                dropped) +
                {(v.ids (get_min_index v.ws), v.ws (get_min_index v.ws))} := by
              rw [add_assoc]
          _ = (slotPairs (apply_influence v c) + ↑rest) +
                {(v.ids (get_min_index v.ws), v.ws (get_min_index v.ws))} := by
              rw [heq]
          _ = (slotPairs (apply_influence v c) +
                {(v.ids (get_min_index v.ws), v.ws (get_min_index v.ws))}) +
                ↑rest := by
              rw [add_right_comm]
          _ = (slotPairs v + {(c.1, c.2)}) + ↑rest := by rw [hstep]
          _ = slotPairs v + ↑(c :: rest) := by
              rw [add_assoc]
              congr 1
      · intro d hd i
        rcases Multiset.mem_add.mp hd with h | h
        · exact hdom d h i
        · have hd2 : d =
              (v.ids (get_min_index v.ws), v.ws (get_min_index v.ws)) := by
            simpa using h
          subst hd2
          have h1 : v.ws (get_min_index v.ws) ≤ (apply_influence v c).ws i := by
            rw [hai]
            by_cases hi : i = get_min_index v.ws
            · subst hi
              show _ ≤ Function.update v.ws (get_min_index v.ws) c.2 _
              rw [Function.update_same]
              exact le_of_lt hacc
            · show _ ≤ Function.update v.ws (get_min_index v.ws) c.2 i
              rw [Function.update_noteq hi]
              exact get_min_index_min v.ws i
          exact le_trans h1 (apply_fold_mono rest _ i)
    · have hai : apply_influence v c = v := by
        rw [apply_influence_eq, if_neg hacc]
      refine ⟨dropped + {c}, ?_, ?_⟩
      · calc slotPairs (rest.foldl apply_influence (apply_influence v c)) +
              (dropped + {c})
            = (slotPairs (rest.foldl apply_influence (apply_influence v c)) +
                dropped) + {c} := by
              rw [add_assoc]
          _ = (slotPairs (apply_influence v c) + ↑rest) + {c} := by rw [heq]
          _ = (slotPairs v + ↑rest) + {c} := by rw [hai]
          _ = slotPairs v + ↑(c :: rest) := by
              rw [add_assoc]
              congr 1
              rw [add_comm, Multiset.singleton_add, Multiset.cons_coe]
      · intro d hd i
        rcases Multiset.mem_add.mp hd with h | h
        · exact hdom d h i
        · have hd2 : d = c := by simpa using h
          subst hd2
          refine le_trans ?_ (apply_fold_mono rest _ i)
          rw [hai]
          exact le_trans (not_lt.mp hacc) (get_min_index_min v.ws i)

theorem get_min_index_eq (v : Fin 4 → ℚ) :
    get_min_index v =
      if v (if v 0 < v 1 then (0 : Fin 4) else 1) <
          v (if v 2 < v 3 then (2 : Fin 4) else 3) then
        (if v 0 < v 1 then (0 : Fin 4) else 1)
      else
        (if v 2 < v 3 then (2 : Fin 4) else 3) := rfl

theorem scenario_eval :
    apply_influences [(1, 1/10), (2, 1/20), (3, 3/5), (4, 3/10), (5, 1/100)] =
      ⟨(Function.update (Function.update (Function.update (Function.update initVertWeights.ids 3 1) 2 2) 1 3) 0 4), (Function.update (Function.update (Function.update (Function.update initVertWeights.ws 3 (1/10)) 2 (1/20)) 1 (3/5)) 0 (3/10))⟩ := by
  unfold apply_influences
  rw [List.foldl_cons, List.foldl_cons, List.foldl_cons, List.foldl_cons,
    List.foldl_cons, List.foldl_nil]
  have c1_0 : initVertWeights.ws 0 = 0 := by
    rfl
  have c1_1 : initVertWeights.ws 1 = 0 := by
    rfl
  have c1_2 : initVertWeights.ws 2 = 0 := by
    rfl
  have c1_3 : initVertWeights.ws 3 = 0 := by
    rfl
  have g1 : get_min_index (initVertWeights.ws) = 3 := by
    rw [get_min_index_eq, c1_0, c1_1, c1_2, c1_3]
    rw [if_neg (show ¬ ((0 : ℚ) < 0) from by norm_num)]
    rw [if_neg (show ¬ ((0 : ℚ) < 0) from by norm_num)]
    rw [c1_1, c1_3]
    rw [if_neg (show ¬ ((0 : ℚ) < 0) from by norm_num)]
  rw [show apply_influence ⟨initVertWeights.ids, initVertWeights.ws⟩ (1, (1/10)) =
      (⟨(Function.update initVertWeights.ids 3 1), (Function.update initVertWeights.ws 3 (1/10))⟩ : VertWeights) from by
    rw [apply_influence_eq]
    show (if (1/10) > (initVertWeights.ws) (get_min_index (initVertWeights.ws)) then _ else _) = _
    rw [g1, c1_3]
    rw [if_pos (show (1/10 : ℚ) > 0 from by norm_num)]]
  have c2_0 : (Function.update initVertWeights.ws 3 (1/10)) 0 = 0 := by
    rw [Function.update_noteq (by decide)]
    rfl
  have c2_1 : (Function.update initVertWeights.ws 3 (1/10)) 1 = 0 := by
    rw [Function.update_noteq (by decide)]
    rfl
  have c2_2 : (Function.update initVertWeights.ws 3 (1/10)) 2 = 0 := by
    rw [Function.update_noteq (by decide)]
    rfl
  have c2_3 : (Function.update initVertWeights.ws 3 (1/10)) 3 = 1/10 := by
    rw [Function.update_same]
  have g2 : get_min_index ((Function.update initVertWeights.ws 3 (1/10))) = 2 := by
    rw [get_min_index_eq, c2_0, c2_1, c2_2, c2_3]
    rw [if_neg (show ¬ ((0 : ℚ) < 0) from by norm_num)]
    rw [if_pos (show (0 : ℚ) < 1/10 from by norm_num)]
    rw [c2_1, c2_2]
    rw [if_neg (show ¬ ((0 : ℚ) < 0) from by norm_num)]
  rw [show apply_influence ⟨(Function.update initVertWeights.ids 3 1), (Function.update initVertWeights.ws 3 (1/10))⟩ (2, (1/20)) =
      (⟨(Function.update (Function.update initVertWeights.ids 3 1) 2 2), (Function.update (Function.update initVertWeights.ws 3 (1/10)) 2 (1/20))⟩ : VertWeights) from by
    rw [apply_influence_eq]
    show (if (1/20) > ((Function.update initVertWeights.ws 3 (1/10))) (get_min_index ((Function.update initVertWeights.ws 3 (1/10)))) then _ else _) = _
    rw [g2, c2_2]
    rw [if_pos (show (1/20 : ℚ) > 0 from by norm_num)]]
  have c3_0 : (Function.update (Function.update initVertWeights.ws 3 (1/10)) 2 (1/20)) 0 = 0 := by
    rw [Function.update_noteq (by decide), Function.update_noteq (by decide)]
    rfl
  have c3_1 : (Function.update (Function.update initVertWeights.ws 3 (1/10)) 2 (1/20)) 1 = 0 := by
    rw [Function.update_noteq (by decide), Function.update_noteq (by decide)]
    rfl
  have c3_2 : (Function.update (Function.update initVertWeights.ws 3 (1/10)) 2 (1/20)) 2 = 1/20 := by
    rw [Function.update_same]
  have c3_3 : (Function.update (Function.update initVertWeights.ws 3 (1/10)) 2 (1/20)) 3 = 1/10 := by
    rw [Function.update_noteq (by decide), Function.update_same]
  have g3 : get_min_index ((Function.update (Function.update initVertWeights.ws 3 (1/10)) 2 (1/20))) = 1 := by
    rw [get_min_index_eq, c3_0, c3_1, c3_2, c3_3]
    rw [if_neg (show ¬ ((0 : ℚ) < 0) from by norm_num)]
    rw [if_pos (show (1/20 : ℚ) < 1/10 from by norm_num)]
    rw [c3_1, c3_2]
    rw [if_pos (show (0 : ℚ) < 1/20 from by norm_num)]
  rw [show apply_influence ⟨(Function.update (Function.update initVertWeights.ids 3 1) 2 2), (Function.update (Function.update initVertWeights.ws 3 (1/10)) 2 (1/20))⟩ (3, (3/5)) =
      (⟨(Function.update (Function.update (Function.update initVertWeights.ids 3 1) 2 2) 1 3), (Function.update (Function.update (Function.update initVertWeights.ws 3 (1/10)) 2 (1/20)) 1 (3/5))⟩ : VertWeights) from by
    rw [apply_influence_eq]
    show (if (3/5) > ((Function.update (Function.update initVertWeights.ws 3 (1/10)) 2 (1/20))) (get_min_index ((Function.update (Function.update initVertWeights.ws 3 (1/10)) 2 (1/20)))) then _ else _) = _
    rw [g3, c3_1]
    rw [if_pos (show (3/5 : ℚ) > 0 from by norm_num)]]
  have c4_0 : (Function.update (Function.update (Function.update initVertWeights.ws 3 (1/10)) 2 (1/20)) 1 (3/5)) 0 = 0 := by
    rw [Function.update_noteq (by decide), Function.update_noteq (by decide), Function.update_noteq (by decide)]
    rfl
  have c4_1 : (Function.update (Function.update (Function.update initVertWeights.ws 3 (1/10)) 2 (1/20)) 1 (3/5)) 1 = 3/5 := by
    rw [Function.update_same]
  have c4_2 : (Function.update (Function.update (Function.update initVertWeights.ws 3 (1/10)) 2 (1/20)) 1 (3/5)) 2 = 1/20 := by
    rw [Function.update_noteq (by decide), Function.update_same]
  have c4_3 : (Function.update (Function.update (Function.update initVertWeights.ws 3 (1/10)) 2 (1/20)) 1 (3/5)) 3 = 1/10 := by
    rw [Function.update_noteq (by decide), Function.update_noteq (by decide), Function.update_same]
  have g4 : get_min_index ((Function.update (Function.update (Function.update initVertWeights.ws 3 (1/10)) 2 (1/20)) 1 (3/5))) = 0 := by
    rw [get_min_index_eq, c4_0, c4_1, c4_2, c4_3]
    rw [if_pos (show (0 : ℚ) < 3/5 from by norm_num)]
    rw [if_pos (show (1/20 : ℚ) < 1/10 from by norm_num)]
    rw [c4_0, c4_2]
    rw [if_pos (show (0 : ℚ) < 1/20 from by norm_num)]
  rw [show apply_influence ⟨(Function.update (Function.update (Function.update initVertWeights.ids 3 1) 2 2) 1 3), (Function.update (Function.update (Function.update initVertWeights.ws 3 (1/10)) 2 (1/20)) 1 (3/5))⟩ (4, (3/10)) =
      (⟨(Function.update (Function.update (Function.update (Function.update initVertWeights.ids 3 1) 2 2) 1 3) 0 4), (Function.update (Function.update (Function.update (Function.update initVertWeights.ws 3 (1/10)) 2 (1/20)) 1 (3/5)) 0 (3/10))⟩ : VertWeights) from by
    rw [apply_influence_eq]
    show (if (3/10) > ((Function.update (Function.update (Function.update initVertWeights.ws 3 (1/10)) 2 (1/20)) 1 (3/5))) (get_min_index ((Function.update (Function.update (Function.update initVertWeights.ws 3 (1/10)) 2 (1/20)) 1 (3/5)))) then _ else _) = _
    rw [g4, c4_0]
    rw [if_pos (show (3/10 : ℚ) > 0 from by norm_num)]]
  have c5_0 : (Function.update (Function.update (Function.update (Function.update initVertWeights.ws 3 (1/10)) 2 (1/20)) 1 (3/5)) 0 (3/10)) 0 = 3/10 := by
    rw [Function.update_same]
  have c5_1 : (Function.update (Function.update (Function.update (Function.update initVertWeights.ws 3 (1/10)) 2 (1/20)) 1 (3/5)) 0 (3/10)) 1 = 3/5 := by
    rw [Function.update_noteq (by decide), Function.update_same]
  have c5_2 : (Function.update (Function.update (Function.update (Function.update initVertWeights.ws 3 (1/10)) 2 (1/20)) 1 (3/5)) 0 (3/10)) 2 = 1/20 := by
    rw [Function.update_noteq (by decide), Function.update_noteq (by decide), Function.update_same]
  have c5_3 : (Function.update (Function.update (Function.update (Function.update initVertWeights.ws 3 (1/10)) 2 (1/20)) 1 (3/5)) 0 (3/10)) 3 = 1/10 := by
    rw [Function.update_noteq (by decide), Function.update_noteq (by decide), Function.update_noteq (by decide), Function.update_same]
  have g5 : get_min_index ((Function.update (Function.update (Function.update (Function.update initVertWeights.ws 3 (1/10)) 2 (1/20)) 1 (3/5)) 0 (3/10))) = 2 := by
    rw [get_min_index_eq, c5_0, c5_1, c5_2, c5_3]
    rw [if_pos (show (3/10 : ℚ) < 3/5 from by norm_num)]
    rw [if_pos (show (1/20 : ℚ) < 1/10 from by norm_num)]
    rw [c5_0, c5_2]
    rw [if_neg (show ¬ ((3/10 : ℚ) < 1/20) from by norm_num)]
  rw [show apply_influence ⟨(Function.update (Function.update (Function.update (Function.update initVertWeights.ids 3 1) 2 2) 1 3) 0 4), (Function.update (Function.update (Function.update (Function.update initVertWeights.ws 3 (1/10)) 2 (1/20)) 1 (3/5)) 0 (3/10))⟩ (5, (1/100)) =
      (⟨(Function.update (Function.update (Function.update (Function.update initVertWeights.ids 3 1) 2 2) 1 3) 0 4), (Function.update (Function.update (Function.update (Function.update initVertWeights.ws 3 (1/10)) 2 (1/20)) 1 (3/5)) 0 (3/10))⟩ : VertWeights) from by
    rw [apply_influence_eq]
    show (if (1/100) > ((Function.update (Function.update (Function.update (Function.update initVertWeights.ws 3 (1/10)) 2 (1/20)) 1 (3/5)) 0 (3/10))) (get_min_index ((Function.update (Function.update (Function.update (Function.update initVertWeights.ws 3 (1/10)) 2 (1/20)) 1 (3/5)) 0 (3/10)))) then _ else _) = _
    rw [g5, c5_2]
    rw [if_neg (show ¬ ((1/100 : ℚ) > 1/20) from by norm_num)]]

theorem normalize_vert_eq (w : VertWeights) :
    normalize_vert w =
      if w.ws 0 + w.ws 1 + w.ws 2 + w.ws 3 > 0 then
        ({ w with ws := fun i => w.ws i /
          (w.ws 0 + w.ws 1 + w.ws 2 + w.ws 3) } : VertWeights)
      else
        ⟨Function.update w.ids 0 0, Function.update w.ws 0 1⟩ := rfl

/-- **C7.**  Influence resolution: the replacement slot chosen by
`get_min_index` always holds a minimal weight, and an incoming
contribution replaces it only when strictly greater; the four retained
(bone id, weight) slots are exactly the four largest of the raw
contributions padded with the four initial zero slots (their multiset,
together with a dropped multiset every element of which is `≤` every
retained weight, accounts exactly for the input); after renormalization
the four weights always sum to 1; a vertex with no contribution at all
ends as weights `[1,0,0,0]` on bone 0; and the spec scenario
`{A:0.1, B:0.05, C:0.6, D:0.3, E:0.01}` retains A, B, C, D (dropping E)
and renormalizes to sum 1. -/
theorem resolve_influences_top4 :
    (∀ (v : Fin 4 → ℚ) (i : Fin 4), v (get_min_index v) ≤ v i) ∧
    (∀ contribs : List (ℕ × ℚ),
      ∃ dropped : Multiset (ℕ × ℚ),
        slotPairs (apply_influences contribs) + dropped =
          slotPairs initVertWeights + ↑contribs ∧
        ∀ d ∈ dropped, ∀ i : Fin 4,
          d.2 ≤ (apply_influences contribs).ws i) ∧
    (∀ contribs : List (ℕ × ℚ),
      (resolve_influences contribs).ws 0 +
        (resolve_influences contribs).ws 1 +
        (resolve_influences contribs).ws 2 +
        (resolve_influences contribs).ws 3 = 1) ∧
    ((resolve_influences []).ws 0 = 1 ∧ (resolve_influences []).ws 1 = 0 ∧
      (resolve_influences []).ws 2 = 0 ∧ (resolve_influences []).ws 3 = 0 ∧
      ∀ i : Fin 4, (resolve_influences []).ids i = 0) ∧
    ((resolve_influences
        [(1, 1/10), (2, 1/20), (3, 3/5), (4, 3/10), (5, 1/100)]).ids 0 = 4 ∧
(resolve_influences
        [(1, 1/10), (2, 1/20), (3, 3/5), (4, 3/10), (5, 1/100)]).ids 1 = 3 ∧
(resolve_influences
        [(1, 1/10), (2, 1/20), (3, 3/5), (4, 3/10), (5, 1/100)]).ids 2 = 2 ∧
(resolve_influences
        [(1, 1/10), (2, 1/20), (3, 3/5), (4, 3/10), (5, 1/100)]).ids 3 = 1 ∧
(resolve_influences
        [(1, 1/10), (2, 1/20), (3, 3/5), (4, 3/10), (5, 1/100)]).ws 0 = 2/7 ∧
(resolve_influences
        [(1, 1/10), (2, 1/20), (3, 3/5), (4, 3/10), (5, 1/100)]).ws 1 = 4/7 ∧
(resolve_influences
        [(1, 1/10), (2, 1/20), (3, 3/5), (4, 3/10), (5, 1/100)]).ws 2 = 1/21 ∧
(resolve_influences
        [(1, 1/10), (2, 1/20), (3, 3/5), (4, 3/10), (5, 1/100)]).ws 3 = 2/21) := by
  refine ⟨get_min_index_min, ?_, ?_, ?_, ?_⟩
  · intro contribs
    exact apply_fold_account contribs initVertWeights
  · intro contribs
    have hnn := apply_influences_nonneg contribs
    rw [show resolve_influences contribs =
      normalize_vert (apply_influences contribs) from rfl, normalize_vert_eq]
    split_ifs with htot
    · show (apply_influences contribs).ws 0 / _ +
        (apply_influences contribs).ws 1 / _ +
        (apply_influences contribs).ws 2 / _ +
        (apply_influences contribs).ws 3 / _ = 1
      rw [div_add_div_same, div_add_div_same, div_add_div_same,
        div_self (ne_of_gt htot)]
    · push_neg at htot
      have h1 : (apply_influences contribs).ws 1 = 0 := by
        have e0 := hnn 0
        have e1 := hnn 1
        have e2 := hnn 2
        have e3 := hnn 3
        linarith
      have h2 : (apply_influences contribs).ws 2 = 0 := by
        have e0 := hnn 0
        have e1 := hnn 1
        have e2 := hnn 2
        have e3 := hnn 3
        linarith
      have h3 : (apply_influences contribs).ws 3 = 0 := by
        have e0 := hnn 0
        have e1 := hnn 1
        have e2 := hnn 2
        have e3 := hnn 3
        linarith
      show Function.update (apply_influences contribs).ws 0 1 0 +
        Function.update (apply_influences contribs).ws 0 1 1 +
        Function.update (apply_influences contribs).ws 0 1 2 +
        Function.update (apply_influences contribs).ws 0 1 3 = 1
      rw [Function.update_same, Function.update_noteq (by decide),
        Function.update_noteq (by decide), Function.update_noteq (by decide),
        h1, h2, h3]
      norm_num
  · rw [show resolve_influences [] = normalize_vert initVertWeights from rfl,
      normalize_vert_eq]
    rw [if_neg (show ¬ (initVertWeights.ws 0 + initVertWeights.ws 1 +
      initVertWeights.ws 2 + initVertWeights.ws 3 > 0) from by
        norm_num [initVertWeights])]
    refine ⟨?_, ?_, ?_, ?_, ?_⟩
    · show Function.update initVertWeights.ws 0 1 0 = 1
      rw [Function.update_same]
    · show Function.update initVertWeights.ws 0 1 1 = 0
      rw [Function.update_noteq (by decide)]
      rfl
    · show Function.update initVertWeights.ws 0 1 2 = 0
      rw [Function.update_noteq (by decide)]
      rfl
    · show Function.update initVertWeights.ws 0 1 3 = 0
      rw [Function.update_noteq (by decide)]
      rfl
    · intro i
      show Function.update initVertWeights.ids 0 0 i = 0
      by_cases hi : i = 0
      · subst hi
        rw [Function.update_same]
      · rw [Function.update_noteq hi]
        rfl
  · rw [show resolve_influences [(1, 1/10), (2, 1/20), (3, 3/5), (4, 3/10), (5, 1/100)] = normalize_vert (apply_influences [(1, 1/10), (2, 1/20), (3, 3/5), (4, 3/10), (5, 1/100)]) from rfl, scenario_eval, normalize_vert_eq]
    have w0 : (Function.update (Function.update (Function.update (Function.update initVertWeights.ws 3 (1/10)) 2 (1/20)) 1 (3/5)) 0 (3/10)) 0 = 3/10 := by
      rw [Function.update_same]
    have w1 : (Function.update (Function.update (Function.update (Function.update initVertWeights.ws 3 (1/10)) 2 (1/20)) 1 (3/5)) 0 (3/10)) 1 = 3/5 := by
      rw [Function.update_noteq (by decide), Function.update_same]
    have w2 : (Function.update (Function.update (Function.update (Function.update initVertWeights.ws 3 (1/10)) 2 (1/20)) 1 (3/5)) 0 (3/10)) 2 = 1/20 := by
      rw [Function.update_noteq (by decide), Function.update_noteq (by decide), Function.update_same]
    have w3 : (Function.update (Function.update (Function.update (Function.update initVertWeights.ws 3 (1/10)) 2 (1/20)) 1 (3/5)) 0 (3/10)) 3 = 1/10 := by
      rw [Function.update_noteq (by decide), Function.update_noteq (by decide), Function.update_noteq (by decide), Function.update_same]
    rw [if_pos (show (Function.update (Function.update (Function.update (Function.update initVertWeights.ws 3 (1/10)) 2 (1/20)) 1 (3/5)) 0 (3/10)) 0 + (Function.update (Function.update (Function.update (Function.update initVertWeights.ws 3 (1/10)) 2 (1/20)) 1 (3/5)) 0 (3/10)) 1 + (Function.update (Function.update (Function.update (Function.update initVertWeights.ws 3 (1/10)) 2 (1/20)) 1 (3/5)) 0 (3/10)) 2 + (Function.update (Function.update (Function.update (Function.update initVertWeights.ws 3 (1/10)) 2 (1/20)) 1 (3/5)) 0 (3/10)) 3 > 0 from by
      rw [w0, w1, w2, w3]
      norm_num)]
    refine ⟨?_, ?_, ?_, ?_, ?_, ?_, ?_, ?_⟩
    · show (Function.update (Function.update (Function.update (Function.update initVertWeights.ids 3 1) 2 2) 1 3) 0 4) 0 = 4
      rw [Function.update_same]
    · show (Function.update (Function.update (Function.update (Function.update initVertWeights.ids 3 1) 2 2) 1 3) 0 4) 1 = 3
      rw [Function.update_noteq (by decide), Function.update_same]
    · show (Function.update (Function.update (Function.update (Function.update initVertWeights.ids 3 1) 2 2) 1 3) 0 4) 2 = 2
      rw [Function.update_noteq (by decide), Function.update_noteq (by decide), Function.update_same]
    · show (Function.update (Function.update (Function.update (Function.update initVertWeights.ids 3 1) 2 2) 1 3) 0 4) 3 = 1
      rw [Function.update_noteq (by decide), Function.update_noteq (by decide), Function.update_noteq (by decide), Function.update_same]
    · show (Function.update (Function.update (Function.update (Function.update initVertWeights.ws 3 (1/10)) 2 (1/20)) 1 (3/5)) 0 (3/10)) 0 / ((Function.update (Function.update (Function.update (Function.update initVertWeights.ws 3 (1/10)) 2 (1/20)) 1 (3/5)) 0 (3/10)) 0 + (Function.update (Function.update (Function.update (Function.update initVertWeights.ws 3 (1/10)) 2 (1/20)) 1 (3/5)) 0 (3/10)) 1 + (Function.update (Function.update (Function.update (Function.update initVertWeights.ws 3 (1/10)) 2 (1/20)) 1 (3/5)) 0 (3/10)) 2 + (Function.update (Function.update (Function.update (Function.update initVertWeights.ws 3 (1/10)) 2 (1/20)) 1 (3/5)) 0 (3/10)) 3) = 2/7
      rw [w0, w1, w2, w3]
      norm_num
    · show (Function.update (Function.update (Function.update (Function.update initVertWeights.ws 3 (1/10)) 2 (1/20)) 1 (3/5)) 0 (3/10)) 1 / ((Function.update (Function.update (Function.update (Function.update initVertWeights.ws 3 (1/10)) 2 (1/20)) 1 (3/5)) 0 (3/10)) 0 + (Function.update (Function.update (Function.update (Function.update initVertWeights.ws 3 (1/10)) 2 (1/20)) 1 (3/5)) 0 (3/10)) 1 + (Function.update (Function.update (Function.update (Function.update initVertWeights.ws 3 (1/10)) 2 (1/20)) 1 (3/5)) 0 (3/10)) 2 + (Function.update (Function.update (Function.update (Function.update initVertWeights.ws 3 (1/10)) 2 (1/20)) 1 (3/5)) 0 (3/10)) 3) = 4/7
      rw [w0, w1, w2, w3]
      norm_num
    · show (Function.update (Function.update (Function.update (Function.update initVertWeights.ws 3 (1/10)) 2 (1/20)) 1 (3/5)) 0 (3/10)) 2 / ((Function.update (Function.update (Function.update (Function.update initVertWeights.ws 3 (1/10)) 2 (1/20)) 1 (3/5)) 0 (3/10)) 0 + (Function.update (Function.update (Function.update (Function.update initVertWeights.ws 3 (1/10)) 2 (1/20)) 1 (3/5)) 0 (3/10)) 1 + (Function.update (Function.update (Function.update (Function.update initVertWeights.ws 3 (1/10)) 2 (1/20)) 1 (3/5)) 0 (3/10)) 2 + (Function.update (Function.update (Function.update (Function.update initVertWeights.ws 3 (1/10)) 2 (1/20)) 1 (3/5)) 0 (3/10)) 3) = 1/21
      rw [w0, w1, w2, w3]
      norm_num
    · show (Function.update (Function.update (Function.update (Function.update initVertWeights.ws 3 (1/10)) 2 (1/20)) 1 (3/5)) 0 (3/10)) 3 / ((Function.update (Function.update (Function.update (Function.update initVertWeights.ws 3 (1/10)) 2 (1/20)) 1 (3/5)) 0 (3/10)) 0 + (Function.update (Function.update (Function.update (Function.update initVertWeights.ws 3 (1/10)) 2 (1/20)) 1 (3/5)) 0 (3/10)) 1 + (Function.update (Function.update (Function.update (Function.update initVertWeights.ws 3 (1/10)) 2 (1/20)) 1 (3/5)) 0 (3/10)) 2 + (Function.update (Function.update (Function.update (Function.update initVertWeights.ws 3 (1/10)) 2 (1/20)) 1 (3/5)) 0 (3/10)) 3) = 2/21
      rw [w0, w1, w2, w3]
      norm_num
